import Mathlib

/-!
Shallow embedding of the cuckoo Linux behavioral-analysis core:
`cuckoo/processing/platform/linux.py` (StapParser, FilteredProcessLog,
BehaviorReconstructor, LinuxSystemTap) and the signature query helpers of
`lib/cuckoo/common/abstracts.py` (Signature.check_argument_call and
Signature._check_value), together with theorems checking the specification
claims about them.

Python values flowing through the trace pipeline are modelled by the
inductive type `Value` below: strings, integers, booleans, lists,
dictionaries (association lists in insertion order) and datetime values
(modelled as an abstract Nat timestamp; the claims never inspect datetime
internals beyond ordering and equality).  Python dictionaries are modelled
as association lists with the usual update-in-place-or-append semantics;
the CPython 2 iteration order of a dict is implementation defined, but
every fact proved below about a dict is stated through `alookup`, i.e.
through key-wise content, which is iteration-order independent.
-/

inductive Value where
  | str : String → Value
  | int : Int → Value
  | bool : Bool → Value
  | vlist : List Value → Value
  | vdict : List (String × Value) → Value
  | vtime : Nat → Value
deriving Repr

mutual

def Value.deq : (a b : Value) → Decidable (a = b)
  | .str x, .str y =>
    match inferInstanceAs (Decidable (x = y)) with
    | isTrue h => isTrue (h ▸ rfl)
    | isFalse h => isFalse (fun hh => h (Value.str.inj hh))
  | .int x, .int y =>
    match inferInstanceAs (Decidable (x = y)) with
    | isTrue h => isTrue (h ▸ rfl)
    | isFalse h => isFalse (fun hh => h (Value.int.inj hh))
  | .bool x, .bool y =>
    match inferInstanceAs (Decidable (x = y)) with
    | isTrue h => isTrue (h ▸ rfl)
    | isFalse h => isFalse (fun hh => h (Value.bool.inj hh))
  | .vtime x, .vtime y =>
    match inferInstanceAs (Decidable (x = y)) with
    | isTrue h => isTrue (h ▸ rfl)
    | isFalse h => isFalse (fun hh => h (Value.vtime.inj hh))
  | .vlist xs, .vlist ys =>
    match Value.deqList xs ys with
    | isTrue h => isTrue (h ▸ rfl)
    | isFalse h => isFalse (fun hh => h (Value.vlist.inj hh))
  | .vdict xs, .vdict ys =>
    match Value.deqDict xs ys with
    | isTrue h => isTrue (h ▸ rfl)
    | isFalse h => isFalse (fun hh => h (Value.vdict.inj hh))
  | .str _, .int _ => isFalse (fun h => Value.noConfusion h)
  | .str _, .bool _ => isFalse (fun h => Value.noConfusion h)
  | .str _, .vlist _ => isFalse (fun h => Value.noConfusion h)
  | .str _, .vdict _ => isFalse (fun h => Value.noConfusion h)
  | .str _, .vtime _ => isFalse (fun h => Value.noConfusion h)
  | .int _, .str _ => isFalse (fun h => Value.noConfusion h)
  | .int _, .bool _ => isFalse (fun h => Value.noConfusion h)
  | .int _, .vlist _ => isFalse (fun h => Value.noConfusion h)
  | .int _, .vdict _ => isFalse (fun h => Value.noConfusion h)
  | .int _, .vtime _ => isFalse (fun h => Value.noConfusion h)
  | .bool _, .str _ => isFalse (fun h => Value.noConfusion h)
  | .bool _, .int _ => isFalse (fun h => Value.noConfusion h)
  | .bool _, .vlist _ => isFalse (fun h => Value.noConfusion h)
  | .bool _, .vdict _ => isFalse (fun h => Value.noConfusion h)
  | .bool _, .vtime _ => isFalse (fun h => Value.noConfusion h)
  | .vlist _, .str _ => isFalse (fun h => Value.noConfusion h)
  | .vlist _, .int _ => isFalse (fun h => Value.noConfusion h)
  | .vlist _, .bool _ => isFalse (fun h => Value.noConfusion h)
  | .vlist _, .vdict _ => isFalse (fun h => Value.noConfusion h)
  | .vlist _, .vtime _ => isFalse (fun h => Value.noConfusion h)
  | .vdict _, .str _ => isFalse (fun h => Value.noConfusion h)
  | .vdict _, .int _ => isFalse (fun h => Value.noConfusion h)
  | .vdict _, .bool _ => isFalse (fun h => Value.noConfusion h)
  | .vdict _, .vlist _ => isFalse (fun h => Value.noConfusion h)
  | .vdict _, .vtime _ => isFalse (fun h => Value.noConfusion h)
  | .vtime _, .str _ => isFalse (fun h => Value.noConfusion h)
  | .vtime _, .int _ => isFalse (fun h => Value.noConfusion h)
  | .vtime _, .bool _ => isFalse (fun h => Value.noConfusion h)
  | .vtime _, .vlist _ => isFalse (fun h => Value.noConfusion h)
  | .vtime _, .vdict _ => isFalse (fun h => Value.noConfusion h)

def Value.deqList : (a b : List Value) → Decidable (a = b)
  | [], [] => isTrue rfl
  | [], _ :: _ => isFalse (fun h => List.noConfusion h)
  | _ :: _, [] => isFalse (fun h => List.noConfusion h)
  | x :: xs, y :: ys =>
    match Value.deq x y, Value.deqList xs ys with
    | isTrue h1, isTrue h2 => isTrue (h1 ▸ h2 ▸ rfl)
    | isFalse h1, _ => isFalse (fun hh => h1 (List.cons.inj hh).1)
    | _, isFalse h2 => isFalse (fun hh => h2 (List.cons.inj hh).2)

def Value.deqDict : (a b : List (String × Value)) → Decidable (a = b)
  | [], [] => isTrue rfl
  | [], _ :: _ => isFalse (fun h => List.noConfusion h)
  | _ :: _, [] => isFalse (fun h => List.noConfusion h)
  | (k1, v1) :: xs, (k2, v2) :: ys =>
    match inferInstanceAs (Decidable (k1 = k2)), Value.deq v1 v2,
        Value.deqDict xs ys with
    | isTrue h0, isTrue h1, isTrue h2 => isTrue (h0 ▸ h1 ▸ h2 ▸ rfl)
    | isFalse h0, _, _ =>
      isFalse (fun hh => h0 (congrArg Prod.fst (List.cons.inj hh).1))
    | _, isFalse h1, _ =>
      isFalse (fun hh => h1 (congrArg Prod.snd (List.cons.inj hh).1))
    | _, _, isFalse h2 => isFalse (fun hh => h2 (List.cons.inj hh).2)

end

instance : DecidableEq Value := Value.deq

/-- Python truthiness of a `Value`: empty strings, zero, `False`, empty
lists and empty dicts are falsy; everything else (including any datetime)
is truthy. -/
def Value.isTruthy : Value → Bool
  | .str s => !s.isEmpty
  | .int n => decide (n ≠ 0)
  | .bool b => b
  | .vlist l => !l.isEmpty
  | .vdict d => !d.isEmpty
  | .vtime _ => true

/-- A Python dictionary, modelled as an association list in insertion
order with unique keys (uniqueness holds for every dict the embedded code
builds; theorems that need it over arbitrary association lists take it as
a `Nodup` hypothesis). -/
abbrev Dict := List (String × Value)

/-- `d[k]` as a total lookup: the value at the first occurrence of key
`k`, `none` when `k` is absent (Python raises `KeyError` there; callers of
`alookup` model that explicitly). -/
def alookup {κ α : Type} [DecidableEq κ] : List (κ × α) → κ → Option α
  | [], _ => none
  | (k, v) :: rest, key => if k = key then some v else alookup rest key

/-- `k in d` membership test on a Python dict. -/
def amem {κ α : Type} [DecidableEq κ] (d : List (κ × α)) (key : κ) : Bool :=
  (alookup d key).isSome

/-- `d[k] = v` dict assignment: update the first binding of `k` in place,
or append a new binding at the end. -/
def aset {κ α : Type} [DecidableEq κ] : List (κ × α) → κ → α → List (κ × α)
  | [], key, v => [(key, v)]
  | (k, w) :: rest, key, v =>
    if k = key then (k, v) :: rest else (k, w) :: aset rest key v

/-- `del d[k]` / `d.pop(k, None)`: drop the first binding of `k`. -/
def adel {κ α : Type} [DecidableEq κ] : List (κ × α) → κ → List (κ × α)
  | [], _ => []
  | (k, w) :: rest, key => if k = key then rest else (k, w) :: adel rest key

/-- A Python dict literal: later bindings of the same key overwrite
earlier ones in place (this matters for the duplicated `"p3"` key in
`post_parse_getsockopt`). -/
def pyDictLit {α : Type} (l : List (String × α)) : List (String × α) :=
  l.foldl (fun d kv => aset d kv.1 kv.2) []

/-- Python exceptions that the embedded code can raise. -/
inductive PyErr where
  | keyError
  | typeError
  | valueError
deriving DecidableEq, Repr

def Except.deq {ε α : Type} [DecidableEq ε] [DecidableEq α] :
    (a b : Except ε α) → Decidable (a = b)
  | .ok x, .ok y =>
    match inferInstanceAs (Decidable (x = y)) with
    | isTrue h => isTrue (h ▸ rfl)
    | isFalse h => isFalse (fun hh => h (Except.ok.inj hh))
  | .error x, .error y =>
    match inferInstanceAs (Decidable (x = y)) with
    | isTrue h => isTrue (h ▸ rfl)
    | isFalse h => isFalse (fun hh => h (Except.error.inj hh))
  | .ok _, .error _ => isFalse (fun h => Except.noConfusion h)
  | .error _, .ok _ => isFalse (fun h => Except.noConfusion h)

instance {ε α : Type} [DecidableEq ε] [DecidableEq α] :
    DecidableEq (Except ε α) := Except.deq

-- Basic association-list lemmas used throughout.

theorem alookup_aset_self {κ α : Type} [DecidableEq κ]
    (d : List (κ × α)) (k : κ) (v : α) : alookup (aset d k v) k = some v := by
  induction d with
  | nil => simp [aset, alookup]
  | cons hd tl ih =>
    obtain ⟨k0, v0⟩ := hd
    by_cases h : k0 = k
    · subst h; simp [aset, alookup]
    · simp [aset, alookup, h, ih]

theorem alookup_aset_ne {κ α : Type} [DecidableEq κ]
    (d : List (κ × α)) (k x : κ) (v : α) (hne : x ≠ k) :
    alookup (aset d k v) x = alookup d x := by
  induction d with
  | nil => simp [aset, alookup, Ne.symm hne]
  | cons hd tl ih =>
    obtain ⟨k0, v0⟩ := hd
    by_cases h : k0 = k
    · subst h
      simp [aset, alookup, Ne.symm hne]
    · by_cases h2 : k0 = x
      · subst h2
        simp [aset, alookup, h]
      · simp [aset, alookup, h, h2, ih]

theorem alookup_adel_ne {κ α : Type} [DecidableEq κ]
    (d : List (κ × α)) (k x : κ) (hne : x ≠ k) :
    alookup (adel d k) x = alookup d x := by
  induction d with
  | nil => simp [adel]
  | cons hd tl ih =>
    obtain ⟨k0, v0⟩ := hd
    by_cases h : k0 = k
    · subst h
      simp [adel, alookup, Ne.symm hne]
    · by_cases h2 : k0 = x
      · subst h2
        simp [adel, alookup, h]
      · simp [adel, alookup, h, h2, ih]

theorem amem_aset {κ α : Type} [DecidableEq κ]
    (d : List (κ × α)) (k x : κ) (v : α) :
    amem (aset d k v) x = (amem d x || decide (x = k)) := by
  by_cases h : x = k
  · subst h
    simp [amem, alookup_aset_self]
  · simp [amem, alookup_aset_ne d k x v h, h]

theorem amem_adel_imp {κ α : Type} [DecidableEq κ]
    (d : List (κ × α)) (k x : κ) (h : amem (adel d k) x = true) :
    amem d x = true := by
  induction d with
  | nil => simp [adel, amem, alookup] at h
  | cons hd tl ih =>
    obtain ⟨k0, v0⟩ := hd
    by_cases h0 : k0 = x
    · simp [amem, alookup, h0]
    · by_cases h1 : k0 = k
      · rw [show adel ((k0, v0) :: tl) k = tl from by simp [adel, h1]] at h
        simpa [amem, alookup, h0] using h
      · rw [show adel ((k0, v0) :: tl) k = (k0, v0) :: adel tl k from by
          simp [adel, h1]] at h
        rw [show amem ((k0, v0) :: adel tl k) x = amem (adel tl k) x from by
          simp [amem, alookup, h0]] at h
        simpa [amem, alookup, h0] using ih h

theorem mem_keys_aset {κ α : Type} [DecidableEq κ]
    (d : List (κ × α)) (k x : κ) (v : α) :
    x ∈ (aset d k v).map Prod.fst ↔ x ∈ d.map Prod.fst ∨ x = k := by
  induction d with
  | nil => simp [aset]
  | cons hd tl ih =>
    obtain ⟨k0, v0⟩ := hd
    by_cases h0 : k0 = k
    · subst h0
      simp [aset]
      tauto
    · simp [aset, h0, ih]
      tauto

theorem keys_nodup_aset {κ α : Type} [DecidableEq κ]
    (d : List (κ × α)) (k : κ) (v : α) (h : (d.map Prod.fst).Nodup) :
    ((aset d k v).map Prod.fst).Nodup := by
  induction d with
  | nil => simp [aset]
  | cons hd tl ih =>
    obtain ⟨k0, v0⟩ := hd
    rw [List.map_cons, List.nodup_cons] at h
    by_cases h0 : k0 = k
    · subst h0
      rw [show aset ((k0, v0) :: tl) k0 v = (k0, v) :: tl from by simp [aset],
        List.map_cons, List.nodup_cons]
      exact ⟨h.1, h.2⟩
    · rw [show aset ((k0, v0) :: tl) k v = (k0, v0) :: aset tl k v from by
        simp [aset, h0], List.map_cons, List.nodup_cons]
      refine ⟨fun hmem => ?_, ih h.2⟩
      rcases (mem_keys_aset tl k k0 v).1 hmem with hm | hk
      · exact h.1 hm
      · exact h0 hk

theorem alookup_none_of_not_mem_keys {κ α : Type} [DecidableEq κ]
    (l : List (κ × α)) (k : κ) (hnm : k ∉ l.map Prod.fst) :
    alookup l k = none := by
  induction l with
  | nil => simp [alookup]
  | cons hd tl ih =>
    obtain ⟨k2, v2⟩ := hd
    rw [List.map_cons, List.mem_cons] at hnm
    push_neg at hnm
    simp [alookup, Ne.symm hnm.1, ih hnm.2]

theorem alookup_adel_self {κ α : Type} [DecidableEq κ]
    (d : List (κ × α)) (k : κ) (h : (d.map Prod.fst).Nodup) :
    alookup (adel d k) k = none := by
  induction d with
  | nil => simp [adel, alookup]
  | cons hd tl ih =>
    obtain ⟨k0, v0⟩ := hd
    rw [List.map_cons, List.nodup_cons] at h
    by_cases h0 : k0 = k
    · subst h0
      simp [adel, alookup_none_of_not_mem_keys tl k0 h.1]
    · simp [adel, alookup, h0, ih h.2]

/-!
StapParser (`linux.py` 172-322).  A trace line that has already been
through the fixed-grammar tokenizer and the recursive argument decoder
(`parse_args` and friends, `linux.py` 208-269) is modelled by `RawEvent`:
the textual tokenizer itself is pure string plumbing that no claim
quantifies over, so the embedding places its boundary right after
tokenization and keeps everything from event construction onwards
(`__iter__` lines 199-206 and the whole `post_parse_*` dispatch layer)
faithful to the source.
-/

structure RawEvent where
  time : Nat
  process_name : String
  instruction_pointer : String
  pid : Int
  api : String
  args : Dict
  return_value : String
  status : String
  raw : String
deriving DecidableEq, Repr

/-- `StapParser.rename_args` (`linux.py` 271-275): for each `key → newKey`
entry of the mapping, when `args.get(key)` is truthy the value is copied
to `newKey` and `key` is deleted; falsy or missing values are left
untouched. -/
def rename_args (args : Dict) (mapping : List (String × String)) : Dict :=
  mapping.foldl (fun a kv =>
    match alookup a kv.1 with
    | some v => if v.isTruthy then adel (aset a kv.2 v) kv.1 else a
    | none => a) args

/-- One entry of the `rename_args` loop, used to reason about the fold. -/
def renameOne (a : Dict) (key newKey : String) : Dict :=
  match alookup a key with
  | some v => if v.isTruthy then adel (aset a newKey v) key else a
  | none => a

theorem rename_args_cons (args : Dict) (kv : String × String)
    (rest : List (String × String)) :
    rename_args args (kv :: rest) = rename_args (renameOne args kv.1 kv.2) rest := by
  simp [rename_args, renameOne]

/-- `post_parse_rt_sigaction` (`linux.py` 277-279); leaves the category
untouched. -/
def post_parse_rt_sigaction (args : Dict) : Dict :=
  rename_args args (pyDictLit [("p0", "signal"), ("p1", "act"), ("p2", "oldact")])

/-- `post_parse_default_file` (`linux.py` 281-289), shared by
`open`, `creat`, `chmode`, `chdir` and `stat`: category `file` plus the
`path`/`mode`/`flags` renaming. -/
def post_parse_default_file (args : Dict) : String × Dict :=
  ("file", rename_args args (pyDictLit [("p0", "path"), ("p1", "mode"), ("p2", "flags")]))

/-- `post_parse_chown` (`linux.py` 291-294). -/
def post_parse_chown (args : Dict) : String × Dict :=
  ("file", rename_args args (pyDictLit [("p0", "path"), ("p1", "owner"), ("p2", "group")]))

/-- `post_parse_write` (`linux.py` 296-301), shared by `read` and
`close`. -/
def post_parse_write (args : Dict) : String × Dict :=
  ("file", rename_args args (pyDictLit [("p0", "fd"), ("p1", "buffer"), ("p2", "count")]))

/-- `post_parse_socket` (`linux.py` 303-306). -/
def post_parse_socket (args : Dict) : String × Dict :=
  ("network", rename_args args (pyDictLit [("p0", "domain"), ("p1", "type"), ("p2", "protocol")]))

/-- `post_parse_getsockopt` (`linux.py` 308-312), shared by
`setsockopt`.  The Python mapping literal writes the key `"p3"` twice
(`"p3": "optval", "p3": "optlen"`); a Python dict literal keeps the last
value for a duplicated key, which `pyDictLit` reproduces, so `p3` is in
fact renamed to `optlen` and the name `optval` is never assigned. -/
def post_parse_getsockopt (args : Dict) : String × Dict :=
  ("network", rename_args args (pyDictLit
    [("p0", "sockfd"), ("p1", "level"), ("p2", "optname"),
     ("p3", "optval"), ("p3", "optlen")]))

/-- `post_parse_accept` (`linux.py` 314-322), shared by `accept4`,
`connect`, `bind`, `getsockname` and `getpeername`. -/
def post_parse_accept (args : Dict) : String × Dict :=
  ("network", rename_args args (pyDictLit
    [("p0", "sockfd"), ("p1", "addr"), ("p2", "addrlen"), ("p3", "flags")]))

/-- The `getattr(self, "post_parse_%s" % fn, ...)` dispatch of
`StapParser.__iter__` (`linux.py` 205): given the API name and the
positional argument dict, produce the final category and argument dict of
the event (`"default"` and unchanged arguments for API names without a
post-parse hook). -/
def postParse (fn : String) (args : Dict) : String × Dict :=
  if fn = "rt_sigaction" then ("default", post_parse_rt_sigaction args)
  else if fn = "open" ∨ fn = "creat" ∨ fn = "chmode" ∨ fn = "chdir" ∨ fn = "stat" then
    post_parse_default_file args
  else if fn = "chown" then post_parse_chown args
  else if fn = "write" ∨ fn = "read" ∨ fn = "close" then post_parse_write args
  else if fn = "socket" then post_parse_socket args
  else if fn = "getsockopt" ∨ fn = "setsockopt" then post_parse_getsockopt args
  else if fn = "accept" ∨ fn = "accept4" ∨ fn = "connect" ∨ fn = "bind" ∨
      fn = "getsockname" ∨ fn = "getpeername" then post_parse_accept args
  else ("default", args)

/-- The event dictionary built for one trace line by `StapParser.__iter__`
(`linux.py` 199-206), with the `post_parse_*` hook already applied (the
hook mutates `category` and `arguments` in place before the event is
yielded). -/
def mkEvent (l : RawEvent) : Dict :=
  let cd := postParse l.api l.args
  [("time", .vtime l.time), ("process_name", .str l.process_name),
   ("pid", .int l.pid), ("instruction_pointer", .str l.instruction_pointer),
   ("api", .str l.api), ("arguments", .vdict cd.2),
   ("return_value", .str l.return_value), ("status", .str l.status),
   ("category", .str cd.1), ("type", .str "apicall"), ("raw", .str l.raw)]

/-!
FilteredProcessLog (`linux.py` 15-30).  `__iter__` loops over the events
of the underlying stream and, inside that loop, loops over the keyword
filters; `continue` inside the inner loop skips to the next FILTER, not
to the next event, and `del event["type"]` raises `KeyError` when the
same event reaches a second matching filter.  Both behaviors are kept.
-/

/-- The inner `for k, v in self.kwfilters.items()` loop of
`FilteredProcessLog.__iter__` for a single event: returns the list of
yields this event produces (the event dict is mutated by
`del event["type"]` and the mutation is visible to later filters). -/
def filterEvent (ev : Dict) : List (String × Value) → Except PyErr (List Dict)
  | [] => .ok []
  | (k, v) :: rest =>
    match alookup ev k with
    | none => .error .keyError
    | some x =>
      if x ≠ v then filterEvent ev rest
      else
        match alookup ev "type" with
        | some _ =>
          let ev2 := adel ev "type"
          match filterEvent ev2 rest with
          | .ok ys => .ok (ev2 :: ys)
          | .error e => .error e
        | none => .error .keyError

/-- A full run of `FilteredProcessLog.__iter__` over a materialized event
stream: concatenation of the per-event yields. -/
def FilteredProcessLog.iter (events : List Dict)
    (kwfilters : List (String × Value)) : Except PyErr (List Dict) :=
  match events with
  | [] => .ok []
  | e :: rest =>
    match filterEvent e kwfilters with
    | .error err => .error err
    | .ok ys =>
      match FilteredProcessLog.iter rest kwfilters with
      | .ok zs => .ok (ys ++ zs)
      | .error err => .error err

/-!
Structured view of a parsed syscall event, as consumed by
`LinuxSystemTap.parse` and `BehaviorReconstructor.process_apicall`.
`StapParser` always yields a dict with exactly the keys of `mkEvent`, with
the statically known types recorded below (`return_value` is the raw
string between the `"= "` and `" ("` delimiters of the trace line).
-/

structure SEvent where
  time : Nat
  process_name : String
  instruction_pointer : String
  pid : Int
  api : String
  arguments : Dict
  return_value : String
  status : String
  category : String
deriving DecidableEq, Repr

/-- The `SEvent` view of the event `StapParser.__iter__` yields for a
tokenized line (same fields as `mkEvent`, structurally typed). -/
def toSEvent (l : RawEvent) : SEvent :=
  let cd := postParse l.api l.args
  { time := l.time, process_name := l.process_name,
    instruction_pointer := l.instruction_pointer, pid := l.pid,
    api := l.api, arguments := cd.2, return_value := l.return_value,
    status := l.status, category := cd.1 }

/-!
BehaviorReconstructor (`linux.py` 123-169).
-/

/-- `single(key, value)` (`linux.py` 123-124). -/
def single (key : String) (value : Value) : List (String × Value) :=
  [(key, value)]

/-- The per-process state of a `BehaviorReconstructor`: `self.files` maps
a return value (the fd) to the opened path, `self.sockets` maps a return
value to the full argument dict of the `socket` call (`linux.py`
131-133). -/
structure BState where
  files : List (Value × Value)
  sockets : List (Value × Dict)
deriving DecidableEq, Repr

/-- A freshly constructed `BehaviorReconstructor()`. -/
def BState.init : BState := ⟨[], []⟩

/-- `_api_open` (`linux.py` 145-147): record `files[return_value] = path`
and emit `files_opened(path)`; `arguments["path"]` raises `KeyError` when
absent. -/
def api_open (st : BState) (return_value : Value) (arguments : Dict) :
    Except PyErr (BState × Option (List (String × Value))) :=
  match alookup arguments "path" with
  | none => .error .keyError
  | some path =>
    .ok ({ st with files := aset st.files return_value path },
      some (single "files_opened" path))

/-- `_api_write` (`linux.py` 149-151): emit `files_writen` (source
spelling) for a tracked fd, silently return `None` otherwise. -/
def api_write (st : BState) (arguments : Dict) :
    Except PyErr (BState × Option (List (String × Value))) :=
  match alookup arguments "fd" with
  | none => .error .keyError
  | some fd =>
    match alookup st.files fd with
    | some path => .ok (st, some (single "files_writen" path))
    | none => .ok (st, none)

/-- `_api_read` (`linux.py` 153-155). -/
def api_read (st : BState) (arguments : Dict) :
    Except PyErr (BState × Option (List (String × Value))) :=
  match alookup arguments "fd" with
  | none => .error .keyError
  | some fd =>
    match alookup st.files fd with
    | some path => .ok (st, some (single "files_read" path))
    | none => .ok (st, none)

/-- `_api_close` (`linux.py` 157-159): pop the fd from both maps (a miss
is ignored), emit nothing. -/
def api_close (st : BState) (arguments : Dict) :
    Except PyErr (BState × Option (List (String × Value))) :=
  match alookup arguments "fd" with
  | none => .error .keyError
  | some fd =>
    .ok ({ files := adel st.files fd, sockets := adel st.sockets fd }, none)

/-- `_api_stat` (`linux.py` 161-162). -/
def api_stat (st : BState) (arguments : Dict) :
    Except PyErr (BState × Option (List (String × Value))) :=
  match alookup arguments "path" with
  | none => .error .keyError
  | some path => .ok (st, some (single "file_exists" path))

/-- `_api_connect` (`linux.py` 164-165). -/
def api_connect (st : BState) (arguments : Dict) :
    Except PyErr (BState × Option (List (String × Value))) :=
  match alookup arguments "addr" with
  | none => .error .keyError
  | some addr => .ok (st, some (single "connects_ip" addr))

/-- `_api_socket` (`linux.py` 167-169): record
`sockets[return_value] = arguments` and emit `socket(type)`. -/
def api_socket (st : BState) (return_value : Value) (arguments : Dict) :
    Except PyErr (BState × Option (List (String × Value))) :=
  let st2 : BState := { st with sockets := aset st.sockets return_value arguments }
  match alookup arguments "type" with
  | none => .error .keyError
  | some ty => .ok (st2, some (single "socket" ty))

/-- `BehaviorReconstructor.process_apicall` (`linux.py` 136-143): look up
`_api_<name>`, call it, normalize a `None` result to the empty fact list;
unknown API names are a no-op. -/
def process_apicall (st : BState) (ev : SEvent) :
    Except PyErr (BState × List (String × Value)) :=
  let norm : Except PyErr (BState × Option (List (String × Value))) →
      Except PyErr (BState × List (String × Value)) := fun r =>
    match r with
    | .error e => .error e
    | .ok (st2, facts) => .ok (st2, facts.getD [])
  if ev.api = "open" then norm (api_open st (.str ev.return_value) ev.arguments)
  else if ev.api = "write" then norm (api_write st ev.arguments)
  else if ev.api = "read" then norm (api_read st ev.arguments)
  else if ev.api = "close" then norm (api_close st ev.arguments)
  else if ev.api = "stat" then norm (api_stat st ev.arguments)
  else if ev.api = "connect" then norm (api_connect st ev.arguments)
  else if ev.api = "socket" then norm (api_socket st (.str ev.return_value) ev.arguments)
  else .ok (st, [])

/-- Fold `process_apicall` over a trace, state only (facts are consumed
by `LinuxSystemTap.parse`, modelled separately below). -/
def runApicalls (st : BState) : List SEvent → Except PyErr BState
  | [] => .ok st
  | ev :: rest =>
    match process_apicall st ev with
    | .error e => .error e
    | .ok (st2, _) => runApicalls st2 rest

/-!
Python built-in helpers used by `LinuxSystemTap` hooks.
-/

/-- Decimal digits to a number; `none` when empty or a non-digit occurs. -/
def digitsToNat (cs : List Char) : Option Nat :=
  if cs.isEmpty then none
  else if cs.all Char.isDigit then
    some (cs.foldl (fun acc c => acc * 10 + (c.toNat - '0'.toNat)) 0)
  else none

/-- Python `int(s)` on a canonical decimal string (optional sign; the
trace return values this is applied to are exactly of that shape);
`none` models the `ValueError` on anything else. -/
def pyInt (s : String) : Option Int :=
  match s.data with
  | '-' :: rest => (digitsToNat rest).map (fun n => -(n : Int))
  | '+' :: rest => (digitsToNat rest).map (fun n => (n : Int))
  | l => (digitsToNat l).map (fun n => (n : Int))

/-- `os.path.basename`: everything after the last slash. -/
def basename (s : String) : String :=
  String.mk ((s.data.reverse.takeWhile (fun c => c ≠ '/')).reverse)

/-- Python `str(v)`.  Exact on strings, integers and booleans; container
and datetime rendering is a structural approximation of `repr` (the code
only ever applies `str` to the decoded string argument 0 of `execve`). -/
def pyStr : Value → String
  | .str s => s
  | .int n => toString n
  | .bool b => if b then "True" else "False"
  | .vtime t => toString t
  | .vlist _ => "[...]"
  | .vdict _ => "dict"

/-- Collect the elements of a list of values when they are all strings. -/
def strOfValues : List Value → Option (List String)
  | [] => some []
  | .str s :: rest => (strOfValues rest).map (fun l => s :: l)
  | _ :: _ => none

/-- Python `" ".join(v)`: joins a list of strings; a plain string is
iterated character by character; anything else raises `TypeError` (as
does a list containing a non-string). -/
def pyJoinSpace : Value → Except PyErr String
  | .vlist l =>
    match strOfValues l with
    | some strs => .ok (String.intercalate " " strs)
    | none => .error .typeError
  | .str s => .ok (String.intercalate " " (s.data.map (fun c => String.mk [c])))
  | _ => .error .typeError

/-!
LinuxSystemTap (`linux.py` 32-121).
-/

/-- One process dict built by `LinuxSystemTap.parse` (`linux.py` 67-75).
The constant `"type": "process"` entry and the lazy `"calls"` view (a
`FilteredProcessLog` over the shared parser, filtered by this pid) carry
no per-record state and are left to the `FilteredProcessLog` model. -/
structure Proc where
  pid : Int
  ppid : Int
  process_name : String
  first_seen : Nat
  command_line : String
deriving DecidableEq, Repr

/-- The mutable state of a `LinuxSystemTap` instance (`linux.py`
41-44). -/
structure PState where
  processes : List Proc
  forkmap : List (Int × Int)
  behavior : List (Int × BState)
  matched : Bool
deriving DecidableEq, Repr

/-- A freshly constructed `LinuxSystemTap` (`__init__`, lines 38-44). -/
def PState.init : PState := ⟨[], [], [], false⟩

/-- Everything `LinuxSystemTap.parse` emits: generic facts (`linux.py`
80-86) and the updated process dict surfaced by a successful `execve`
(`linux.py` 88-90). -/
inductive POut where
  | generic (pid : Int) (category : String) (value : Value)
  | proc (p : Proc)
deriving DecidableEq, Repr

/-- `LinuxSystemTap.handles_path` (`linux.py` 46-49): a `.stap` path sets
`self.matched` and returns `True`; any other path falls through
(returning Python `None`, modelled as `none`). -/
def handles_path (st : PState) (path : String) : Option Bool × PState :=
  if List.isSuffixOf ".stap".data path.data then
    (some true, { st with matched := true })
  else (none, st)

/-- `LinuxSystemTap.pre_hook` (`linux.py` 93-95): `clone`/`fork` records
child pid `int(return_value)` → parent pid; a non-numeric return value
raises `ValueError`. -/
def pre_hook (st : PState) (sc : SEvent) : Except PyErr PState :=
  if sc.api = "clone" ∨ sc.api = "fork" then
    match pyInt sc.return_value with
    | some child => .ok { st with forkmap := aset st.forkmap child sc.pid }
    | none => .error .valueError
  else .ok st

/-- `LinuxSystemTap.get_proc` (`linux.py` 108-111): first process record
with the given pid, `None` when absent. -/
def get_proc (st : PState) (pid : Int) : Option Proc :=
  st.processes.find? (fun p => decide (p.pid = pid))

/-- Replace the first process record with the given pid (`get_proc`
returns a reference and `post_hook` mutates it in place). -/
def updateProc : List Proc → Int → Proc → List Proc
  | [], _, _ => []
  | p :: rest, pid, q =>
    if p.pid = pid then q :: rest else p :: updateProc rest pid q

/-- `LinuxSystemTap.is_newpid` (`linux.py` 113-114). -/
def is_newpid (st : PState) (pid : Int) : Bool :=
  !(st.processes.any (fun p => decide (p.pid = pid)))

/-- `LinuxSystemTap.post_hook` (`linux.py` 97-106): after the first
successful `execve` (falsy, i.e. empty, return value) for a pid whose
record still has a falsy command line, overwrite the record's
process name and command line and return the record (`None` otherwise).
`get_proc` returning `None` would raise `TypeError` on subscription. -/
def post_hook (st : PState) (sc : SEvent) : Except PyErr (PState × Option Proc) :=
  if sc.api = "execve" then
    match get_proc st sc.pid with
    | none => .error .typeError
    | some p =>
      if sc.return_value.isEmpty ∧ p.command_line.isEmpty then
        match alookup sc.arguments "p0" with
        | none => .error .keyError
        | some p0 =>
          match alookup sc.arguments "p1" with
          | none => .error .keyError
          | some p1 =>
            match pyJoinSpace p1 with
            | .error e => .error e
            | .ok cl =>
              let q : Proc := { p with process_name := basename (pyStr p0),
                                       command_line := cl }
              .ok ({ st with processes := updateProc st.processes sc.pid q }, some q)
      else .ok (st, none)
  else .ok (st, none)

/-- The state after the new-pid block of `LinuxSystemTap.parse`
(`linux.py` 64-77): when the pid is new, a process dict is appended
(parent from the fork map, default `-1`) and a fresh
`BehaviorReconstructor` is installed for the pid. -/
def midState (st1 : PState) (sc : SEvent) : PState :=
  if is_newpid st1 sc.pid then
    { st1 with
      processes := st1.processes ++
        [{ pid := sc.pid, ppid := (alookup st1.forkmap sc.pid).getD (-1),
           process_name := sc.process_name, first_seen := sc.time,
           command_line := "" }],
      behavior := aset st1.behavior sc.pid BState.init }
  else st1

/-- The tail of the loop body (`linux.py` 88-90): run `post_hook` and
yield the surfaced process dict after the generic facts, if any. -/
def parseStepFinish (st3 : PState) (outs1 : List POut) (sc : SEvent) :
    Except PyErr (PState × List POut) :=
  match post_hook st3 sc with
  | .error e => .error e
  | .ok (st4, pOpt) =>
    match pOpt with
    | some p => .ok (st4, outs1 ++ [POut.proc p])
    | none => .ok (st4, outs1)

/-- The body of the `for syscall in parser` loop of
`LinuxSystemTap.parse` (`linux.py` 54-90) for one syscall: pre-hook, the
fork-map gate, process-record creation, behavior reconstruction, and the
post-hook, returning the updated state and the outputs yielded for this
syscall. -/
def parseStep (st0 : PState) (sc : SEvent) : Except PyErr (PState × List POut) :=
  match pre_hook st0 sc with
  | .error e => .error e
  | .ok st1 =>
    if amem st1.forkmap sc.pid then
      match alookup (midState st1 sc).behavior sc.pid with
      | none => .error .keyError
      | some bst =>
        match process_apicall bst sc with
        | .error e => .error e
        | .ok (bst2, facts) =>
          parseStepFinish
            { midState st1 sc with
              behavior := aset (midState st1 sc).behavior sc.pid bst2 }
            (facts.map (fun f => POut.generic sc.pid f.1 f.2)) sc
    else .ok (st1, [])

/-- A full run of `LinuxSystemTap.parse` over a trace, accumulating the
yielded outputs in order. -/
def parseRun (st : PState) : List SEvent → Except PyErr (PState × List POut)
  | [] => .ok (st, [])
  | sc :: rest =>
    match parseStep st sc with
    | .error e => .error e
    | .ok (st2, outs) =>
      match parseRun st2 rest with
      | .error e => .error e
      | .ok (st3, outs2) => .ok (st3, outs ++ outs2)

/-- `LinuxSystemTap.run` (`linux.py` 116-121): `None` when no `.stap`
trace was ever handled; otherwise the process list sorted by first-seen
timestamp (Python's stable sort, modelled by insertion sort — the claims
constrain only sortedness and content). -/
def LinuxSystemTap.run (st : PState) : Option (List Proc) :=
  if st.matched then
    some (List.insertionSort (fun a b => a.first_seen ≤ b.first_seen) st.processes)
  else none

/-!
Signature query helpers (`abstracts.py`): `_check_value` (731-757) and
`check_argument_call` (984-1024).  The compiled case-insensitive regex of
the `regex=True` branch is abstracted by a matcher parameter
`rmatch pattern subject`; the control flow around it is kept faithful.
-/

/-- `Signature._check_value` (`abstracts.py` 731-757): scan a list
subject in encounter order and return the first element equal to the
pattern (or matching the compiled regex); compare a scalar subject
directly; `None` when nothing matches. -/
def check_value (rmatch : Value → Value → Bool) (pattern : Value)
    (subject : Value) (regex : Bool) : Option Value :=
  if regex then
    match subject with
    | .vlist items => items.find? (fun item => rmatch pattern item)
    | _ => if rmatch pattern subject then some subject else none
  else
    match subject with
    | .vlist items => items.find? (fun item => decide (item = pattern))
    | _ => if subject = pattern then some subject else none

/-- The `for argument in call["arguments"]` loop of
`check_argument_call` (`abstracts.py` 1011-1022).  `call["arguments"]` is
a dict keyed by argument name (see `get_argument`, line 1138), so the
loop variable `argument` is a STRING key; on a truthy `_check_value`
result the code executes `return argument["value"]`, which subscripts
that string with a string and therefore raises `TypeError`. -/
def argumentsLoop (rmatch : Value → Value → Bool) (fullArgs : Dict)
    (pattern : Value) (name : Option String) (regex : Bool) :
    List (String × Value) → Except PyErr Value
  | [] => .ok (.bool false)
  | (argument, _) :: rest =>
    if (match name with | some n => argument != n | none => false : Bool) then
      argumentsLoop rmatch fullArgs pattern name regex rest
    else
      match alookup fullArgs argument with
      | none => .error .keyError
      | some subject =>
        match check_value rmatch pattern subject regex with
        | some matched =>
          if matched.isTruthy then .error .typeError
          else argumentsLoop rmatch fullArgs pattern name regex rest
        | none => argumentsLoop rmatch fullArgs pattern name regex rest

/-- `Signature.check_argument_call` (`abstracts.py` 984-1024): optional
api filter (`call["api"] != api` → `False`), optional category filter
(`call.get("category") != category` → `False`), then the argument loop
above; falls through to `False`. -/
def check_argument_call (rmatch : Value → Value → Bool) (call : Dict)
    (pattern : Value) (name : Option String) (api : Option String)
    (category : Option String) (regex : Bool) : Except PyErr Value :=
  match api with
  | some a =>
    (match alookup call "api" with
     | none => .error .keyError
     | some v =>
       if v ≠ .str a then .ok (.bool false)
       else check_argument_call_cat rmatch call pattern name category regex)
  | none => check_argument_call_cat rmatch call pattern name category regex
where
  check_argument_call_cat (rmatch : Value → Value → Bool) (call : Dict)
      (pattern : Value) (name : Option String) (category : Option String)
      (regex : Bool) : Except PyErr Value :=
    match category with
    | some c =>
      if alookup call "category" ≠ some (.str c) then .ok (.bool false)
      else check_argument_call_args rmatch call pattern name regex
    | none => check_argument_call_args rmatch call pattern name regex
  check_argument_call_args (rmatch : Value → Value → Bool) (call : Dict)
      (pattern : Value) (name : Option String) (regex : Bool) :
      Except PyErr Value :=
    match alookup call "arguments" with
    | none => .error .keyError
    | some (.vdict args) => argumentsLoop rmatch args pattern name regex args
    | some _ => .error .typeError

/-!
Shared-file iteration (`StapParser.__iter__`, `linux.py` 178-206, and
`FilteredProcessLog.__iter__`).  The log source handed to `StapParser` is
a file object shared by every generator created from the same parser:
`__iter__` seeks it to position 0 when the generator first runs, and each
line read advances the shared position.  `StapFd` models that file
(tokenized lines plus current position); `stapNext` is one `next()` on a
`StapParser` generator (the `started` flag records whether the initial
`seek(0)` has happened); `fpNext` is one `next()` on a
`FilteredProcessLog` generator with a single equality filter, skipping
lines until a yield or exhaustion (its fuel only bounds that inner skip
loop and is always instantiated above the number of remaining lines).
-/

structure StapFd where
  lines : List RawEvent
  pos : Nat
deriving DecidableEq, Repr

/-- One `next()` on a `StapParser.__iter__` generator over the shared
file: seek to 0 on first use, then read and parse the line at the current
position. -/
def stapNext (started : Bool) (fd : StapFd) : Option Dict × Bool × StapFd :=
  let fd1 := if started then fd else { fd with pos := 0 }
  match fd1.lines[fd1.pos]? with
  | some l => (some (mkEvent l), true, { fd1 with pos := fd1.pos + 1 })
  | none => (none, true, fd1)

/-- One `next()` on a `FilteredProcessLog` generator with the single
keyword filter `kv` (the only form the reconstructor creates:
`FilteredProcessLog(parser, pid=pid)`). -/
def fpNext : Nat → String × Value → Bool → StapFd →
    Except PyErr (Option Dict × Bool × StapFd)
  | 0, _, s, fd => .ok (none, s, fd)
  | fuel + 1, kv, s, fd =>
    match stapNext s fd with
    | (none, s2, fd2) => .ok (none, s2, fd2)
    | (some ev, s2, fd2) =>
      match alookup ev kv.1 with
      | none => .error .keyError
      | some x =>
        if x ≠ kv.2 then fpNext fuel kv s2 fd2
        else
          match alookup ev "type" with
          | some _ => .ok (some (adel ev "type"), s2, fd2)
          | none => .error .keyError

/-- Drive one `FilteredProcessLog` generator to exhaustion, collecting
its yields (each `next()` gets fuel covering the whole file). -/
def drainView : Nat → String × Value → Bool → StapFd → Except PyErr (List Dict)
  | 0, _, _, _ => .ok []
  | fuel + 1, kv, s, fd =>
    match fpNext (fuel + 1) kv s fd with
    | .error e => .error e
    | .ok (none, _, _) => .ok []
    | .ok (some ev, s2, fd2) =>
      match drainView fuel kv s2 fd2 with
      | .error e => .error e
      | .ok ys => .ok (ev :: ys)

/-- Two `FilteredProcessLog` generators A and B over the same parser
(same shared file), their collected yields, and whether each is
exhausted. -/
structure TwoViews where
  sA : Bool
  sB : Bool
  doneA : Bool
  doneB : Bool
  fd : StapFd
  outA : List Dict
  outB : List Dict
deriving DecidableEq, Repr

def TwoViews.init (lines : List RawEvent) : TwoViews :=
  ⟨false, false, false, false, ⟨lines, 0⟩, [], []⟩

/-- Schedule one `next()` on view A (`pick = true`) or view B of the
interleaving; an exhausted generator keeps raising `StopIteration`, i.e.
stays done; an error state is kept unchanged (never reached on the
concrete traces used below). -/
def stepView (kvA kvB : String × Value) (st : TwoViews) (pick : Bool) : TwoViews :=
  if pick then
    if st.doneA then st
    else
      match fpNext (st.fd.lines.length + 1) kvA st.sA st.fd with
      | .ok (some ev, s2, fd2) => { st with sA := s2, fd := fd2, outA := st.outA ++ [ev] }
      | .ok (none, s2, fd2) => { st with sA := s2, fd := fd2, doneA := true }
      | .error _ => st
  else
    if st.doneB then st
    else
      match fpNext (st.fd.lines.length + 1) kvB st.sB st.fd with
      | .ok (some ev, s2, fd2) => { st with sB := s2, fd := fd2, outB := st.outB ++ [ev] }
      | .ok (none, s2, fd2) => { st with sB := s2, fd := fd2, doneB := true }
      | .error _ => st

/-- Run an interleaving schedule of `next()` calls on the two views. -/
def runSched (kvA kvB : String × Value) (schedule : List Bool)
    (lines : List RawEvent) : TwoViews :=
  schedule.foldl (stepView kvA kvB) (TwoViews.init lines)

/-!
Lemmas about one `rename_args` step.
-/

theorem amem_iff_mem_keys {κ α : Type} [DecidableEq κ]
    (d : List (κ × α)) (x : κ) : amem d x = true ↔ x ∈ d.map Prod.fst := by
  induction d with
  | nil => simp [amem, alookup]
  | cons hd tl ih =>
    obtain ⟨k0, v0⟩ := hd
    by_cases h : k0 = x
    · subst h
      simp [amem, alookup]
    · rw [show amem ((k0, v0) :: tl) x = amem tl x from by simp [amem, alookup, h],
        List.map_cons, List.mem_cons, ih]
      constructor
      · exact Or.inr
      · rintro (h1 | h1)
        · exact absurd h1.symm h
        · exact h1

theorem mem_keys_adel_imp {κ α : Type} [DecidableEq κ]
    (d : List (κ × α)) (k x : κ) (h : x ∈ (adel d k).map Prod.fst) :
    x ∈ d.map Prod.fst :=
  (amem_iff_mem_keys d x).1
    (amem_adel_imp d k x ((amem_iff_mem_keys (adel d k) x).2 h))

theorem keys_nodup_adel {κ α : Type} [DecidableEq κ]
    (d : List (κ × α)) (k : κ) (h : (d.map Prod.fst).Nodup) :
    ((adel d k).map Prod.fst).Nodup := by
  induction d with
  | nil => simp [adel]
  | cons hd tl ih =>
    obtain ⟨k0, v0⟩ := hd
    rw [List.map_cons, List.nodup_cons] at h
    by_cases h0 : k0 = k
    · rw [show adel ((k0, v0) :: tl) k = tl from by simp [adel, h0]]
      exact h.2
    · rw [show adel ((k0, v0) :: tl) k = (k0, v0) :: adel tl k from by
        simp [adel, h0], List.map_cons, List.nodup_cons]
      exact ⟨fun hm => h.1 (mem_keys_adel_imp tl k k0 hm), ih h.2⟩

theorem renameOne_eq (a : Dict) (key newKey : String) (v : Value)
    (hkv : alookup a key = some v) (ht : v.isTruthy = true) :
    renameOne a key newKey = adel (aset a newKey v) key := by
  simp [renameOne, hkv, ht]

theorem renameOne_skip_none (a : Dict) (key newKey : String)
    (h : alookup a key = none) : renameOne a key newKey = a := by
  simp [renameOne, h]

theorem renameOne_skip_falsy (a : Dict) (key newKey : String) (v : Value)
    (h : alookup a key = some v) (hf : v.isTruthy = false) :
    renameOne a key newKey = a := by
  simp [renameOne, h, hf]

theorem renameOne_nodup (a : Dict) (key newKey : String)
    (hnd : (a.map Prod.fst).Nodup) :
    ((renameOne a key newKey).map Prod.fst).Nodup := by
  cases h : alookup a key with
  | none => rw [renameOne_skip_none a key newKey h]; exact hnd
  | some v =>
    cases ht : v.isTruthy with
    | false => rw [renameOne_skip_falsy a key newKey v h ht]; exact hnd
    | true =>
      rw [renameOne_eq a key newKey v h ht]
      exact keys_nodup_adel _ _ (keys_nodup_aset a newKey v hnd)

theorem renameOne_lookup_new (a : Dict) (key newKey : String) (v : Value)
    (hkv : alookup a key = some v) (ht : v.isTruthy = true)
    (hne : newKey ≠ key) :
    alookup (renameOne a key newKey) newKey = some v := by
  rw [renameOne_eq a key newKey v hkv ht, alookup_adel_ne _ _ _ hne]
  exact alookup_aset_self a newKey v

theorem renameOne_lookup_old (a : Dict) (key newKey : String) (v : Value)
    (hnd : (a.map Prod.fst).Nodup)
    (hkv : alookup a key = some v) (ht : v.isTruthy = true) :
    alookup (renameOne a key newKey) key = none := by
  rw [renameOne_eq a key newKey v hkv ht]
  exact alookup_adel_self _ _ (keys_nodup_aset a newKey v hnd)

theorem renameOne_preserve (a : Dict) (key newKey x : String)
    (hx1 : x ≠ key) (hx2 : x ≠ newKey) :
    alookup (renameOne a key newKey) x = alookup a x := by
  cases h : alookup a key with
  | none => rw [renameOne_skip_none a key newKey h]
  | some v =>
    cases ht : v.isTruthy with
    | false => rw [renameOne_skip_falsy a key newKey v h ht]
    | true =>
      rw [renameOne_eq a key newKey v h ht, alookup_adel_ne _ _ _ hx1,
        alookup_aset_ne _ _ _ _ hx2]

theorem rename_args_nil (a : Dict) : rename_args a [] = a := rfl

/-!
Claim C2: the `getsockopt`/`setsockopt` renaming.
-/

/-- Concrete decoded arguments of a five-argument `getsockopt` call. -/
def c2args : Dict :=
  [("p0", .str "5"), ("p1", .str "1"), ("p2", .str "6"),
   ("p3", .str "abc"), ("p4", .str "4")]

/-- C2, counterexample: the claim says the positional arguments are
renamed to the keys sockfd/level/optname/optval with p3 mapped to optval
and no key named `optlen` in the result.  On a concrete five-argument
call the dispatch in fact produces NO `optval` key, and the value of `p3`
appears under the key `optlen` (the duplicated `"p3"` key of the mapping
literal makes the `optlen` entry win). -/
theorem c2_counterexample :
    alookup (post_parse_getsockopt c2args).2 "optval" = none ∧
    alookup (post_parse_getsockopt c2args).2 "optlen" = some (.str "abc") := by
  decide

/-- C2 (amended): for every parsed `getsockopt`/`setsockopt` line the
dispatch sets category `network` and renames `p0`→`sockfd`, `p1`→`level`,
`p2`→`optname` and `p3`→`optlen` (the mapping literal writes the key
`"p3"` twice, so its last value `optlen` wins): the key `optval` never
appears, the value of positional argument `p3` lands under the key
`optlen`, and the fifth positional argument `p4` keeps its positional
key. -/
theorem c2_getsockopt_rename (args : Dict) (v0 v1 v2 v3 v4 : Value)
    (hnd : (args.map Prod.fst).Nodup)
    (h0 : alookup args "p0" = some v0) (t0 : v0.isTruthy = true)
    (h1 : alookup args "p1" = some v1) (t1 : v1.isTruthy = true)
    (h2 : alookup args "p2" = some v2) (t2 : v2.isTruthy = true)
    (h3 : alookup args "p3" = some v3) (t3 : v3.isTruthy = true)
    (h4 : alookup args "p4" = some v4)
    (habs4 : alookup args "optval" = none) :
    (post_parse_getsockopt args).1 = "network" ∧
    alookup (post_parse_getsockopt args).2 "sockfd" = some v0 ∧
    alookup (post_parse_getsockopt args).2 "level" = some v1 ∧
    alookup (post_parse_getsockopt args).2 "optname" = some v2 ∧
    alookup (post_parse_getsockopt args).2 "optlen" = some v3 ∧
    alookup (post_parse_getsockopt args).2 "optval" = none ∧
    alookup (post_parse_getsockopt args).2 "p0" = none ∧
    alookup (post_parse_getsockopt args).2 "p1" = none ∧
    alookup (post_parse_getsockopt args).2 "p2" = none ∧
    alookup (post_parse_getsockopt args).2 "p3" = none ∧
    alookup (post_parse_getsockopt args).2 "p4" = some v4 := by
  have hsnd : (post_parse_getsockopt args).2 =
      renameOne (renameOne (renameOne (renameOne args "p0" "sockfd")
        "p1" "level") "p2" "optname") "p3" "optlen" := by
    show rename_args args (pyDictLit _) = _
    rw [show pyDictLit [("p0", "sockfd"), ("p1", "level"), ("p2", "optname"),
        ("p3", "optval"), ("p3", "optlen")] =
        [("p0", "sockfd"), ("p1", "level"), ("p2", "optname"), ("p3", "optlen")]
      from by decide]
    rw [rename_args_cons, rename_args_cons, rename_args_cons, rename_args_cons]
    rfl
  have nd1 : (((renameOne args "p0" "sockfd").map Prod.fst)).Nodup :=
    renameOne_nodup args "p0" "sockfd" hnd
  have nd2 : (((renameOne (renameOne args "p0" "sockfd") "p1" "level").map
      Prod.fst)).Nodup := renameOne_nodup _ "p1" "level" nd1
  have nd3 : (((renameOne (renameOne (renameOne args "p0" "sockfd") "p1" "level")
      "p2" "optname").map Prod.fst)).Nodup := renameOne_nodup _ "p2" "optname" nd2
  have a1_p1 : alookup (renameOne args "p0" "sockfd") "p1" = some v1 :=
    (renameOne_preserve args "p0" "sockfd" "p1" (by decide) (by decide)).trans h1
  have a1_p2 : alookup (renameOne args "p0" "sockfd") "p2" = some v2 :=
    (renameOne_preserve args "p0" "sockfd" "p2" (by decide) (by decide)).trans h2
  have a1_p3 : alookup (renameOne args "p0" "sockfd") "p3" = some v3 :=
    (renameOne_preserve args "p0" "sockfd" "p3" (by decide) (by decide)).trans h3
  have a2_p2 : alookup (renameOne (renameOne args "p0" "sockfd") "p1" "level")
      "p2" = some v2 :=
    (renameOne_preserve _ "p1" "level" "p2" (by decide) (by decide)).trans a1_p2
  have a2_p3 : alookup (renameOne (renameOne args "p0" "sockfd") "p1" "level")
      "p3" = some v3 :=
    (renameOne_preserve _ "p1" "level" "p3" (by decide) (by decide)).trans a1_p3
  have a3_p3 : alookup (renameOne (renameOne (renameOne args "p0" "sockfd")
      "p1" "level") "p2" "optname") "p3" = some v3 :=
    (renameOne_preserve _ "p2" "optname" "p3" (by decide) (by decide)).trans a2_p3
  refine ⟨rfl, ?_, ?_, ?_, ?_, ?_, ?_, ?_, ?_, ?_, ?_⟩
  · rw [hsnd, renameOne_preserve _ "p3" "optlen" "sockfd" (by decide) (by decide),
      renameOne_preserve _ "p2" "optname" "sockfd" (by decide) (by decide),
      renameOne_preserve _ "p1" "level" "sockfd" (by decide) (by decide)]
    exact renameOne_lookup_new args "p0" "sockfd" v0 h0 t0 (by decide)
  · rw [hsnd, renameOne_preserve _ "p3" "optlen" "level" (by decide) (by decide),
      renameOne_preserve _ "p2" "optname" "level" (by decide) (by decide)]
    exact renameOne_lookup_new _ "p1" "level" v1 a1_p1 t1 (by decide)
  · rw [hsnd, renameOne_preserve _ "p3" "optlen" "optname" (by decide) (by decide)]
    exact renameOne_lookup_new _ "p2" "optname" v2 a2_p2 t2 (by decide)
  · rw [hsnd]
    exact renameOne_lookup_new _ "p3" "optlen" v3 a3_p3 t3 (by decide)
  · rw [hsnd, renameOne_preserve _ "p3" "optlen" "optval" (by decide) (by decide),
      renameOne_preserve _ "p2" "optname" "optval" (by decide) (by decide),
      renameOne_preserve _ "p1" "level" "optval" (by decide) (by decide),
      renameOne_preserve _ "p0" "sockfd" "optval" (by decide) (by decide)]
    exact habs4
  · rw [hsnd, renameOne_preserve _ "p3" "optlen" "p0" (by decide) (by decide),
      renameOne_preserve _ "p2" "optname" "p0" (by decide) (by decide),
      renameOne_preserve _ "p1" "level" "p0" (by decide) (by decide)]
    exact renameOne_lookup_old args "p0" "sockfd" v0 hnd h0 t0
  · rw [hsnd, renameOne_preserve _ "p3" "optlen" "p1" (by decide) (by decide),
      renameOne_preserve _ "p2" "optname" "p1" (by decide) (by decide)]
    exact renameOne_lookup_old _ "p1" "level" v1 nd1 a1_p1 t1
  · rw [hsnd, renameOne_preserve _ "p3" "optlen" "p2" (by decide) (by decide)]
    exact renameOne_lookup_old _ "p2" "optname" v2 nd2 a2_p2 t2
  · rw [hsnd]
    exact renameOne_lookup_old _ "p3" "optlen" v3 nd3 a3_p3 t3
  · rw [hsnd, renameOne_preserve _ "p3" "optlen" "p4" (by decide) (by decide),
      renameOne_preserve _ "p2" "optname" "p4" (by decide) (by decide),
      renameOne_preserve _ "p1" "level" "p4" (by decide) (by decide),
      renameOne_preserve _ "p0" "sockfd" "p4" (by decide) (by decide)]
    exact h4

/-- C2, witness: the amended renaming theorem applied to the concrete
five-argument call. -/
theorem c2_witness :
    alookup (post_parse_getsockopt c2args).2 "optlen" = some (.str "abc") :=
  (c2_getsockopt_rename c2args (.str "5") (.str "1") (.str "6") (.str "abc")
    (.str "4") (by decide) (by decide) (by decide) (by decide) (by decide)
    (by decide) (by decide) (by decide) (by decide) (by decide)
    (by decide)).2.2.2.2.1

/-!
Claim C10: renaming only fires on truthy decoded values.
-/

/-- C10: in the dispatch-table renaming a positional argument is moved to
its semantic name only when its decoded value is truthy.  For the
`open`-family table (`p0`→`path`, `p1`→`mode`, `p2`→`flags`): a falsy
decoded `p0` (empty string, empty list, ...) keeps its positional key and
the semantic key `path` is absent from the resulting mapping, while a
truthy `p0` is moved to `path` and loses its positional key. -/
theorem c10_rename_truthiness_gate :
    (∀ args v, alookup args "p0" = some v → v.isTruthy = false →
      alookup args "path" = none →
      alookup (post_parse_default_file args).2 "p0" = some v ∧
      alookup (post_parse_default_file args).2 "path" = none) ∧
    (∀ args v, (args.map Prod.fst).Nodup →
      alookup args "p0" = some v → v.isTruthy = true →
      alookup (post_parse_default_file args).2 "path" = some v ∧
      alookup (post_parse_default_file args).2 "p0" = none) := by
  have hsnd : ∀ args, (post_parse_default_file args).2 =
      renameOne (renameOne (renameOne args "p0" "path") "p1" "mode")
        "p2" "flags" := by
    intro args
    show rename_args args (pyDictLit _) = _
    rw [show pyDictLit [("p0", "path"), ("p1", "mode"), ("p2", "flags")] =
        [("p0", "path"), ("p1", "mode"), ("p2", "flags")] from by decide]
    rw [rename_args_cons, rename_args_cons, rename_args_cons]
    rfl
  constructor
  · intro args v h0 hf hpath
    have ha1 : renameOne args "p0" "path" = args :=
      renameOne_skip_falsy args "p0" "path" v h0 hf
    constructor
    · rw [hsnd args, ha1,
        renameOne_preserve _ "p2" "flags" "p0" (by decide) (by decide),
        renameOne_preserve _ "p1" "mode" "p0" (by decide) (by decide)]
      exact h0
    · rw [hsnd args, ha1,
        renameOne_preserve _ "p2" "flags" "path" (by decide) (by decide),
        renameOne_preserve _ "p1" "mode" "path" (by decide) (by decide)]
      exact hpath
  · intro args v hnd h0 ht
    constructor
    · rw [hsnd args,
        renameOne_preserve _ "p2" "flags" "path" (by decide) (by decide),
        renameOne_preserve _ "p1" "mode" "path" (by decide) (by decide)]
      exact renameOne_lookup_new args "p0" "path" v h0 ht (by decide)
    · rw [hsnd args,
        renameOne_preserve _ "p2" "flags" "p0" (by decide) (by decide),
        renameOne_preserve _ "p1" "mode" "p0" (by decide) (by decide)]
      exact renameOne_lookup_old args "p0" "path" v hnd h0 ht

/-- C10, witness: an `open` whose decoded path argument is the empty
string keeps `p0` and gets no `path` key; one with a real path is moved
to `path`. -/
theorem c10_witness :
    (alookup (post_parse_default_file
        [("p0", .str ""), ("p1", .str "O_RDONLY")]).2 "p0" = some (.str "") ∧
      alookup (post_parse_default_file
        [("p0", .str ""), ("p1", .str "O_RDONLY")]).2 "path" = none) ∧
    (alookup (post_parse_default_file
        [("p0", .str "/etc/passwd"), ("p1", .str "O_RDONLY")]).2 "path" =
        some (.str "/etc/passwd") ∧
      alookup (post_parse_default_file
        [("p0", .str "/etc/passwd"), ("p1", .str "O_RDONLY")]).2 "p0" = none) :=
  ⟨c10_rename_truthiness_gate.1 [("p0", .str ""), ("p1", .str "O_RDONLY")]
      (.str "") (by decide) (by decide) (by decide),
    c10_rename_truthiness_gate.2 [("p0", .str "/etc/passwd"), ("p1", .str "O_RDONLY")]
      (.str "/etc/passwd") (by decide) (by decide) (by decide)⟩

/-!
Claim C9: `check_argument_call`.
-/

/-- C9: whenever an argument value of the call satisfies the pattern
check (here literal equality, no filters), `check_argument_call` executes
`return argument["value"]` where `argument` is the dict KEY being
iterated — a string subscripted with a string — and so raises `TypeError`
instead of returning the matched value; only the no-match path returns
normally (with `False`). -/
theorem c9_match_raises_typeerror :
    check_argument_call (fun _ _ => false)
      [("api", .str "open"), ("category", .str "file"),
       ("arguments", .vdict [("path", .str "/etc/passwd")])]
      (.str "/etc/passwd") none none none false = .error .typeError ∧
    check_argument_call (fun _ _ => false)
      [("api", .str "open"), ("category", .str "file"),
       ("arguments", .vdict [("path", .str "/etc/passwd")])]
      (.str "/no/match") none none none false = .ok (.bool false) := by
  decide

/-!
Claim C7: `close` forgets the fd and untracked fds are silently ignored.
-/

/-- C7: `close(fd)` removes the fd from both the file map and the socket
map and emits no fact; a later `write(fd)`/`read(fd)` on that fd (or any
fd never tracked) returns with no fact, no state change and no error. -/
theorem c7_close_then_untracked_silent :
    (∀ st sc fd, sc.api = "close" → alookup sc.arguments "fd" = some fd →
      (st.files.map Prod.fst).Nodup → (st.sockets.map Prod.fst).Nodup →
      process_apicall st sc =
        .ok (⟨adel st.files fd, adel st.sockets fd⟩, []) ∧
      amem (adel st.files fd) fd = false ∧
      amem (adel st.sockets fd) fd = false) ∧
    (∀ st sc fd, sc.api = "write" → alookup sc.arguments "fd" = some fd →
      alookup st.files fd = none →
      process_apicall st sc = .ok (st, [])) ∧
    (∀ st sc fd, sc.api = "read" → alookup sc.arguments "fd" = some fd →
      alookup st.files fd = none →
      process_apicall st sc = .ok (st, [])) := by
  refine ⟨?_, ?_, ?_⟩
  · intro st sc fd happ hfd hnd1 hnd2
    refine ⟨by simp [process_apicall, happ, api_close, hfd], ?_, ?_⟩
    · simp [amem, alookup_adel_self st.files fd hnd1]
    · simp [amem, alookup_adel_self st.sockets fd hnd2]
  · intro st sc fd happ hfd hun
    simp [process_apicall, happ, api_write, hfd, hun]
  · intro st sc fd happ hfd hun
    simp [process_apicall, happ, api_read, hfd, hun]

/-- C7, witness: close fd 6 while it is tracked in both maps, then write
and read on untracked fds. -/
theorem c7_witness :
    (process_apicall
        ⟨[(.str "6", .str "/etc/passwd")], [(.str "6", [("type", .str "1")])]⟩
        ⟨2, "python", "7f", 2114, "close", [("fd", .str "6")], "0", "0", "file"⟩ =
      .ok (⟨adel [(Value.str "6", Value.str "/etc/passwd")] (Value.str "6"),
        adel [(Value.str "6", [("type", Value.str "1")])] (Value.str "6")⟩, []) ∧
      amem (adel [(Value.str "6", Value.str "/etc/passwd")] (Value.str "6"))
        (Value.str "6") = false ∧
      amem (adel [(Value.str "6", [("type", Value.str "1")])] (Value.str "6"))
        (Value.str "6") = false) ∧
    process_apicall BState.init
      ⟨3, "python", "7f", 2114, "write", [("fd", .str "6")], "10", "0", "file"⟩ =
      .ok (BState.init, []) ∧
    process_apicall BState.init
      ⟨4, "python", "7f", 2114, "read", [("fd", .str "6")], "10", "0", "file"⟩ =
      .ok (BState.init, []) :=
  ⟨c7_close_then_untracked_silent.1
      ⟨[(.str "6", .str "/etc/passwd")], [(.str "6", [("type", .str "1")])]⟩
      ⟨2, "python", "7f", 2114, "close", [("fd", .str "6")], "0", "0", "file"⟩
      (.str "6") (by decide) (by decide) (by decide) (by decide),
    c7_close_then_untracked_silent.2.1 BState.init
      ⟨3, "python", "7f", 2114, "write", [("fd", .str "6")], "10", "0", "file"⟩
      (.str "6") (by decide) (by decide) (by decide),
    c7_close_then_untracked_silent.2.2 BState.init
      ⟨4, "python", "7f", 2114, "read", [("fd", .str "6")], "10", "0", "file"⟩
      (.str "6") (by decide) (by decide) (by decide)⟩

/-!
Claim C4: disjointness of the file and socket maps.
-/

/-- No descriptor is simultaneously a key of the file map and of the
socket map. -/
def disjointFdMaps (st : BState) : Prop :=
  ∀ v, ¬(amem st.files v = true ∧ amem st.sockets v = true)

/-- Freshness of descriptors along a trace: every `open`/`socket` call
returns a value not currently tracked in either map (true of any trace an
operating system can produce, since a live descriptor is not handed out
again). -/
def freshRets (st : BState) : List SEvent → Bool
  | [] => true
  | ev :: rest =>
    (if ev.api == "open" || ev.api == "socket" then
      !(amem st.files (.str ev.return_value) ||
        amem st.sockets (.str ev.return_value))
    else true) &&
    (match process_apicall st ev with
     | .ok (st2, _) => freshRets st2 rest
     | .error _ => true)

theorem disjoint_step (st : BState) (ev : SEvent) (st2 : BState)
    (facts : List (String × Value))
    (hd : disjointFdMaps st)
    (hfresh : (ev.api = "open" ∨ ev.api = "socket") →
      amem st.files (.str ev.return_value) = false ∧
      amem st.sockets (.str ev.return_value) = false)
    (hstep : process_apicall st ev = .ok (st2, facts)) :
    disjointFdMaps st2 := by
  by_cases h1 : ev.api = "open"
  · simp [process_apicall, h1] at hstep
    rcases hp : alookup ev.arguments "path" with _ | path
    · simp [api_open, hp] at hstep
    · simp [api_open, hp] at hstep
      intro v hv
      rw [← hstep.1] at hv
      simp [amem_aset] at hv
      rcases hv.1 with hm | hm
      · exact hd v ⟨hm, hv.2⟩
      · subst hm
        exact absurd hv.2 (by simp [(hfresh (Or.inl h1)).2])
  · by_cases h2 : ev.api = "write"
    · simp [process_apicall, h1, h2] at hstep
      rcases hfd : alookup ev.arguments "fd" with _ | fd
      · simp [api_write, hfd] at hstep
      · rcases hm : alookup st.files fd with _ | path <;>
          simp [api_write, hfd, hm] at hstep <;>
          exact hstep.1 ▸ hd
    · by_cases h3 : ev.api = "read"
      · simp [process_apicall, h1, h2, h3] at hstep
        rcases hfd : alookup ev.arguments "fd" with _ | fd
        · simp [api_read, hfd] at hstep
        · rcases hm : alookup st.files fd with _ | path <;>
            simp [api_read, hfd, hm] at hstep <;>
            exact hstep.1 ▸ hd
      · by_cases h4 : ev.api = "close"
        · simp [process_apicall, h1, h2, h3, h4] at hstep
          rcases hfd : alookup ev.arguments "fd" with _ | fd
          · simp [api_close, hfd] at hstep
          · simp [api_close, hfd] at hstep
            intro v hv
            rw [← hstep.1] at hv
            exact hd v ⟨amem_adel_imp st.files fd v hv.1,
              amem_adel_imp st.sockets fd v hv.2⟩
        · by_cases h5 : ev.api = "stat"
          · simp [process_apicall, h1, h2, h3, h4, h5] at hstep
            rcases hp : alookup ev.arguments "path" with _ | path <;>
              simp [api_stat, hp] at hstep
            exact hstep.1 ▸ hd
          · by_cases h6 : ev.api = "connect"
            · simp [process_apicall, h1, h2, h3, h4, h5, h6] at hstep
              rcases ha : alookup ev.arguments "addr" with _ | addr <;>
                simp [api_connect, ha] at hstep
              exact hstep.1 ▸ hd
            · by_cases h7 : ev.api = "socket"
              · simp [process_apicall, h1, h2, h3, h4, h5, h6, h7] at hstep
                rcases ht : alookup ev.arguments "type" with _ | ty
                · simp [api_socket, ht] at hstep
                · simp [api_socket, ht] at hstep
                  intro v hv
                  rw [← hstep.1] at hv
                  simp [amem_aset] at hv
                  rcases hv.2 with hm | hm
                  · exact hd v ⟨hv.1, hm⟩
                  · subst hm
                    exact absurd hv.1 (by simp [(hfresh (Or.inr h7)).1])
              · simp [process_apicall, h1, h2, h3, h4, h5, h6, h7] at hstep
                exact hstep.1 ▸ hd

/-- C4 (amended): along any trace in which every `open`/`socket` return
value is fresh (not currently tracked in either map), disjointness of the
file map and the socket map is an invariant of the reconstructor: after
each processed call no descriptor is a key of both maps. -/
theorem c4_disjoint_invariant (evs : List SEvent) :
    ∀ st st2, disjointFdMaps st → freshRets st evs = true →
      runApicalls st evs = .ok st2 → disjointFdMaps st2 := by
  induction evs with
  | nil =>
    intro st st2 hd _ hrun
    simp [runApicalls] at hrun
    exact hrun ▸ hd
  | cons ev rest ih =>
    intro st st2 hd hfresh hrun
    simp [runApicalls] at hrun
    rcases hstep : process_apicall st ev with e | p
    · simp [hstep] at hrun
    · obtain ⟨st1, facts⟩ := p
      simp [hstep] at hrun
      simp [freshRets, hstep, Bool.and_eq_true] at hfresh
      refine ih st1 st2 (disjoint_step st ev st1 facts hd ?_ hstep) hfresh.2 hrun
      intro hapi
      rcases hfresh.1 with h | h
      · rcases hapi with ha | ha
        · exact absurd ha h.1
        · exact absurd ha h.2
      · exact h

/-- Concrete trace on which the claim as stated fails: `open` returns
descriptor 3, then (without any close) `socket` also returns 3. -/
def c4trace : List SEvent :=
  [⟨0, "p", "7f", 1, "open", [("path", .str "/x")], "3", "0", "file"⟩,
   ⟨1, "p", "7f", 1, "socket", [("type", .str "1")], "3", "0", "network"⟩]

/-- C4, counterexample: the claim quantifies over ANY interleaving of the
seven calls; on `c4trace` (no close between two calls returning the same
descriptor — the handlers never erase the other map on open/socket) the
descriptor "3" ends up a key of BOTH maps, so the claimed disjointness
fails. -/
theorem c4_counterexample :
    runApicalls BState.init c4trace =
      .ok ⟨[(.str "3", .str "/x")], [(.str "3", [("type", .str "1")])]⟩ ∧
    amem ([(Value.str "3", Value.str "/x")] :
      List (Value × Value)) (.str "3") = true ∧
    amem ([(Value.str "3", [("type", Value.str "1")])] :
      List (Value × Dict)) (.str "3") = true := by
  decide

/-- C4, witness: the amended invariant applied to a fresh-descriptor
trace (`open` returns 3, `socket` returns 4). -/
theorem c4_witness :
    disjointFdMaps ⟨[(.str "3", .str "/x")], [(.str "4", [("type", .str "1")])]⟩ :=
  c4_disjoint_invariant
    [⟨0, "p", "7f", 1, "open", [("path", .str "/x")], "3", "0", "file"⟩,
     ⟨1, "p", "7f", 1, "socket", [("type", .str "1")], "4", "0", "network"⟩]
    BState.init
    ⟨[(.str "3", .str "/x")], [(.str "4", [("type", .str "1")])]⟩
    (fun v hv => by simp [BState.init, amem, alookup] at hv)
    (by decide) (by decide)

/-!
Claim C1: what `FilteredProcessLog` yields.
-/

theorem filterEvent_singleton (e : Dict) (k : String) (v : Value)
    (hk : amem e k = true) (ht : amem e "type" = true) :
    filterEvent e [(k, v)] =
      .ok (if alookup e k = some v then [adel e "type"] else []) := by
  rcases hx : alookup e k with _ | x
  · rw [amem, hx] at hk
    simp at hk
  · by_cases hxv : x = v
    · subst hxv
      rcases hty : alookup e "type" with _ | ty
      · rw [amem, hty] at ht
        simp at ht
      · simp [filterEvent, hx, hty]
    · simp [filterEvent, hx, hxv, Ne.symm hxv]

/-- C1 (amended): for a SINGLETON filter mapping (the only shape the
reconstructor builds, `FilteredProcessLog(parser, pid=pid)`), iterating
the view yields exactly the events whose field `k` equals `v`, in order,
each exactly once with its `type` key removed, and events failing the
filter are not yielded.  (With two or more filters the inner-loop
`continue` skips to the next FILTER rather than the next event, so an
event matching ANY filter is yielded — see the counterexample.) -/
theorem c1_singleton_filter (events : List Dict) (k : String) (v : Value)
    (hk : ∀ e ∈ events, amem e k = true)
    (ht : ∀ e ∈ events, amem e "type" = true) :
    FilteredProcessLog.iter events [(k, v)] =
      .ok ((events.filter (fun e => decide (alookup e k = some v))).map
        (fun e => adel e "type")) := by
  induction events with
  | nil => simp [FilteredProcessLog.iter]
  | cons e rest ih =>
    have hk1 : amem e k = true := hk e (List.mem_cons_self e rest)
    have ht1 : amem e "type" = true := ht e (List.mem_cons_self e rest)
    have ihr := ih (fun x hx => hk x (List.mem_cons_of_mem e hx))
      (fun x hx => ht x (List.mem_cons_of_mem e hx))
    by_cases hev : alookup e k = some v
    · simp [FilteredProcessLog.iter, filterEvent_singleton e k v hk1 ht1, hev,
        ihr, List.filter_cons]
    · simp [FilteredProcessLog.iter, filterEvent_singleton e k v hk1 ht1, hev,
        ihr, List.filter_cons]

/-- C1, counterexample: with the two-filter mapping
`pid = 1, api = "open"`, an event that matches the pid filter but FAILS
the api filter is nevertheless yielded (once, with `type` removed): the
`continue` in `FilteredProcessLog.__iter__` skips to the next filter, not
to the next event, so the claimed match-ALL semantics does not hold. -/
theorem c1_counterexample :
    FilteredProcessLog.iter
      [[("pid", Value.int 1), ("api", Value.str "read"),
        ("type", Value.str "apicall")]]
      [("pid", .int 1), ("api", .str "open")] =
      .ok [[("pid", Value.int 1), ("api", Value.str "read")]] ∧
    [[("pid", Value.int 1), ("api", Value.str "read")]] ≠ ([] : List Dict) := by
  decide

/-- C1, witness: the singleton-filter theorem on a two-event stream where
only the first event carries pid 1. -/
theorem c1_witness :
    FilteredProcessLog.iter
      [[("pid", Value.int 1), ("api", Value.str "open"),
        ("type", Value.str "apicall")],
       [("pid", Value.int 2), ("api", Value.str "read"),
        ("type", Value.str "apicall")]]
      [("pid", .int 1)] =
      .ok [[("pid", Value.int 1), ("api", Value.str "open")]] :=
  (c1_singleton_filter
    [[("pid", Value.int 1), ("api", Value.str "open"),
      ("type", Value.str "apicall")],
     [("pid", Value.int 2), ("api", Value.str "read"),
      ("type", Value.str "apicall")]]
    "pid" (.int 1) (by decide) (by decide)).trans (by decide)

/-!
Claim C3: restartability and (non-)independence of views.
-/

theorem fpNext_notStarted_pos (f : Nat) (kv : String × Value)
    (lines : List RawEvent) (p : Nat) :
    fpNext (f + 1) kv false ⟨lines, p⟩ = fpNext (f + 1) kv false ⟨lines, 0⟩ := rfl

/-- C3 (amended): a complete, non-interleaved traversal of a Process
Filter View is independent of the position the shared log source was left
at — the generator seeks the source back to 0 before its first read — so
running a view to completion twice (or after any other completed
traversal) yields identical event sequences.  Interleaved traversals over
the same parser do NOT enjoy this: they share the file position and can
steal lines from each other (see the counterexample). -/
theorem c3_view_restartable (fuel : Nat) (kv : String × Value)
    (lines : List RawEvent) (p q : Nat) :
    drainView fuel kv false ⟨lines, p⟩ = drainView fuel kv false ⟨lines, q⟩ := by
  cases fuel with
  | zero => rfl
  | succ f =>
    show drainView (f + 1) kv false ⟨lines, p⟩ = drainView (f + 1) kv false ⟨lines, q⟩
    rw [drainView, drainView, fpNext_notStarted_pos f kv lines p,
      fpNext_notStarted_pos f kv lines q]

/-- Two one-syscall trace lines for pid 1. -/
def c3l1 : RawEvent := ⟨0, "python", "7f", 1, "foo", [], "0", "0", "raw1"⟩

def c3l2 : RawEvent := ⟨1, "python", "7f", 1, "bar", [], "0", "0", "raw2"⟩

/-- C3, counterexample: two views A and B over the same parser, both
filtering `pid = 1`, on a two-line log.  Solo, a complete traversal of A
yields both events.  Interleaved as A, B, B, A, view B's initial
`seek(0)` and subsequent reads move the shared file position, so A
observes only the first event and then exhaustion: the interleaved
traversals DO affect each other's observed sequence, contradicting the
claim. -/
theorem c3_counterexample :
    drainView 3 ("pid", Value.int 1) false ⟨[c3l1, c3l2], 0⟩ =
      .ok [adel (mkEvent c3l1) "type", adel (mkEvent c3l2) "type"] ∧
    (runSched ("pid", Value.int 1) ("pid", Value.int 1)
      [true, false, false, true] [c3l1, c3l2]).outA =
      [adel (mkEvent c3l1) "type"] ∧
    ([adel (mkEvent c3l1) "type"] : List Dict) ≠
      [adel (mkEvent c3l1) "type", adel (mkEvent c3l2) "type"] := by
  decide

/-!
Claim C8: `run` distinguishes "no trace" from an empty process tree.
-/

theorem pre_hook_matched (st : PState) (sc : SEvent) (st1 : PState)
    (h : pre_hook st sc = .ok st1) : st1.matched = st.matched := by
  unfold pre_hook at h
  split at h
  · split at h
    · injection h with h2
      rw [← h2]
    · exact Except.noConfusion h
  · injection h with h2
    rw [← h2]

theorem post_hook_matched (st : PState) (sc : SEvent) (st2 : PState)
    (popt : Option Proc) (h : post_hook st sc = .ok (st2, popt)) :
    st2.matched = st.matched := by
  unfold post_hook at h
  split at h
  · split at h
    · exact Except.noConfusion h
    · split at h
      · split at h
        · exact Except.noConfusion h
        · split at h
          · exact Except.noConfusion h
          · split at h
            · exact Except.noConfusion h
            · injection h with h2
              rw [← (Prod.mk.inj h2).1]
      · injection h with h2
        rw [← (Prod.mk.inj h2).1]
  · injection h with h2
    rw [← (Prod.mk.inj h2).1]

theorem midState_matched (st1 : PState) (sc : SEvent) :
    (midState st1 sc).matched = st1.matched := by
  unfold midState
  split <;> rfl

theorem midState_forkmap (st1 : PState) (sc : SEvent) :
    (midState st1 sc).forkmap = st1.forkmap := by
  unfold midState
  split <;> rfl

theorem parseStepFinish_spec (st3 : PState) (outs1 : List POut) (sc : SEvent)
    (st2 : PState) (outs : List POut)
    (h : parseStepFinish st3 outs1 sc = .ok (st2, outs)) :
    ∃ pOpt, post_hook st3 sc = .ok (st2, pOpt) ∧
      (outs = outs1 ∨
        ∃ pr, pOpt = some pr ∧ outs = outs1 ++ [POut.proc pr]) := by
  unfold parseStepFinish at h
  rcases hph : post_hook st3 sc with e | q
  · rw [hph] at h
    exact Except.noConfusion h
  · obtain ⟨st4, pOpt⟩ := q
    rw [hph] at h
    dsimp only at h
    rcases pOpt with _ | pr
    · injection h with h2
      obtain ⟨h3, h4⟩ := Prod.mk.inj h2
      subst h3
      exact ⟨none, rfl, Or.inl h4.symm⟩
    · injection h with h2
      obtain ⟨h3, h4⟩ := Prod.mk.inj h2
      subst h3
      exact ⟨some pr, rfl, Or.inr ⟨pr, rfl, h4.symm⟩⟩

/-- Decomposition of a successful `parseStep` into its two outcomes:
the event was gated away (pid not in the fork map), or it went through
the reconstruction pipeline. -/
theorem parseStep_cases (st : PState) (sc : SEvent) (st2 : PState)
    (outs : List POut) (h : parseStep st sc = .ok (st2, outs)) :
    ∃ st1, pre_hook st sc = .ok st1 ∧
      ((amem st1.forkmap sc.pid = false ∧ st2 = st1 ∧ outs = []) ∨
       (amem st1.forkmap sc.pid = true ∧
        ∃ bst bst2 facts pOpt,
          alookup (midState st1 sc).behavior sc.pid = some bst ∧
          process_apicall bst sc = .ok (bst2, facts) ∧
          post_hook { midState st1 sc with
            behavior := aset (midState st1 sc).behavior sc.pid bst2 } sc =
            .ok (st2, pOpt) ∧
          (outs = facts.map (fun f => POut.generic sc.pid f.1 f.2) ∨
           ∃ pr, pOpt = some pr ∧
             outs = facts.map (fun f => POut.generic sc.pid f.1 f.2)
               ++ [POut.proc pr]))) := by
  unfold parseStep at h
  rcases hpre : pre_hook st sc with e | st1
  · rw [hpre] at h
    exact Except.noConfusion h
  · rw [hpre] at h
    dsimp only at h
    refine ⟨st1, rfl, ?_⟩
    by_cases hfm : amem st1.forkmap sc.pid
    · rw [if_pos hfm] at h
      rcases hbl : alookup (midState st1 sc).behavior sc.pid with _ | bst
      · rw [hbl] at h
        exact Except.noConfusion h
      · rw [hbl] at h
        dsimp only at h
        rcases hpa : process_apicall bst sc with e | p
        · rw [hpa] at h
          exact Except.noConfusion h
        · obtain ⟨bst2, facts⟩ := p
          rw [hpa] at h
          dsimp only at h
          obtain ⟨pOpt, hph, houts⟩ := parseStepFinish_spec _ _ sc st2 outs h
          exact Or.inr ⟨hfm, bst, bst2, facts, pOpt, rfl, hpa, hph, houts⟩
    · rw [if_neg hfm] at h
      injection h with h2
      obtain ⟨h3, h4⟩ := Prod.mk.inj h2
      exact Or.inl ⟨Bool.eq_false_iff.mpr hfm, h3.symm, h4.symm⟩

theorem parseStep_matched (st : PState) (sc : SEvent) (st2 : PState)
    (outs : List POut) (h : parseStep st sc = .ok (st2, outs)) :
    st2.matched = st.matched := by
  obtain ⟨st1, hpre, hc⟩ := parseStep_cases st sc st2 outs h
  have hm1 := pre_hook_matched st sc st1 hpre
  rcases hc with ⟨_, h2, _⟩ | ⟨_, bst, bst2, facts, pOpt, hbl, hpa, hph, houts⟩
  · rw [h2]
    exact hm1
  · have h4 := post_hook_matched _ sc st2 pOpt hph
    exact h4.trans ((midState_matched st1 sc).trans hm1)

theorem parseRun_matched (evs : List SEvent) : ∀ (st st2 : PState)
    (outs : List POut), parseRun st evs = .ok (st2, outs) →
    st2.matched = st.matched := by
  induction evs with
  | nil =>
    intro st st2 outs h
    simp [parseRun] at h
    rw [← h.1]
  | cons sc rest ih =>
    intro st st2 outs h
    unfold parseRun at h
    rcases hstep : parseStep st sc with e | p
    · rw [hstep] at h
      exact Except.noConfusion h
    · obtain ⟨stm, outs1⟩ := p
      rw [hstep] at h
      dsimp only at h
      rcases hrun : parseRun stm rest with e | q
      · rw [hrun] at h
        exact Except.noConfusion h
      · obtain ⟨st3, outs2⟩ := q
        rw [hrun] at h
        injection h with h2
        rw [← (Prod.mk.inj h2).1]
        exact (ih stm st3 outs2 hrun).trans (parseStep_matched st sc stm outs1 hstep)

/-- The reconstructor state after `handles_path` has been offered each
path of an analysis. -/
def foldHandles (st : PState) (paths : List String) : PState :=
  paths.foldl (fun s p => (handles_path s p).2) st

theorem foldHandles_matched (paths : List String) : ∀ st : PState,
    (foldHandles st paths).matched =
      (st.matched || paths.any (fun p => List.isSuffixOf ".stap".data p.data)) := by
  induction paths with
  | nil => intro st; simp [foldHandles]
  | cons p rest ih =>
    intro st
    show (foldHandles ((handles_path st p).2) rest).matched = _
    by_cases hs : List.isSuffixOf ".stap".data p.data
    · have h2 : (handles_path st p).2 = { st with matched := true } := by
        unfold handles_path
        rw [if_pos hs]
      rw [h2, ih]
      simp [List.any_cons, hs]
    · have h2 : (handles_path st p).2 = st := by
        unfold handles_path
        rw [if_neg hs]
      rw [h2, ih]
      simp [List.any_cons, hs]

/-- C8: after offering every path to `handles_path` and parsing
whatever traces followed, `run()` returns `None` exactly when no path
ended in `.stap`; otherwise it returns the (possibly empty) process list,
sorted so that first-seen timestamps are monotonically non-decreasing,
containing exactly the reconstructed records. -/
theorem c8_run_result (paths : List String) (evs : List SEvent)
    (st2 : PState) (outs : List POut)
    (h : parseRun (foldHandles PState.init paths) evs = .ok (st2, outs)) :
    ((paths.any (fun p => List.isSuffixOf ".stap".data p.data)) = false →
      LinuxSystemTap.run st2 = none) ∧
    ((paths.any (fun p => List.isSuffixOf ".stap".data p.data)) = true →
      ∃ l, LinuxSystemTap.run st2 = some l ∧
        List.Sorted (fun a b : Proc => a.first_seen ≤ b.first_seen) l ∧
        l.Perm st2.processes) := by
  have hm : st2.matched =
      (paths.any (fun p => List.isSuffixOf ".stap".data p.data)) := by
    rw [parseRun_matched evs _ st2 outs h, foldHandles_matched paths PState.init]
    simp [PState.init]
  constructor
  · intro hnone
    rw [LinuxSystemTap.run, hm, hnone]
    simp
  · intro hsome
    rw [LinuxSystemTap.run, hm, hsome]
    haveI : IsTotal Proc (fun a b : Proc => a.first_seen ≤ b.first_seen) :=
      ⟨fun a b => Nat.le_total a.first_seen b.first_seen⟩
    haveI : IsTrans Proc (fun a b : Proc => a.first_seen ≤ b.first_seen) :=
      ⟨fun _ _ _ => Nat.le_trans⟩
    exact ⟨_, by simp, List.sorted_insertionSort _ _, List.perm_insertionSort _ _⟩

/-- C8, witness: one handled `.stap` path and an empty trace. -/
theorem c8_witness :
    (((["trace.stap"] : List String).any
        (fun p => List.isSuffixOf ".stap".data p.data)) = false →
      LinuxSystemTap.run ⟨[], [], [], true⟩ = none) ∧
    (((["trace.stap"] : List String).any
        (fun p => List.isSuffixOf ".stap".data p.data)) = true →
      ∃ l, LinuxSystemTap.run ⟨[], [], [], true⟩ = some l ∧
        List.Sorted (fun a b : Proc => a.first_seen ≤ b.first_seen) l ∧
        l.Perm (⟨[], [], [], true⟩ : PState).processes) :=
  c8_run_result ["trace.stap"] [] ⟨[], [], [], true⟩ [] (by decide)

/-!
Claim C6: `execve` handling in `post_hook`.
-/

/-- First successful `execve` of pid 1; its argument-1 list is EMPTY, so
the joined command line is the empty string. -/
def c6sc1 : SEvent :=
  ⟨6, "python", "7f", 1, "execve",
   [("p0", .str "/bin/a"), ("p1", .vlist [])], "", "0", "default"⟩

/-- Second successful `execve` of pid 1, with a non-empty argument
list. -/
def c6sc2 : SEvent :=
  ⟨7, "python", "7f", 1, "execve",
   [("p0", .str "/bin/b"), ("p1", .vlist [.str "x"])], "", "0", "default"⟩

/-- C6, counterexample: the guard is `not pid["command_line"]`, not a
"first execve" flag.  A first successful `execve` whose argument-1 list
joins to the empty string leaves the command line falsy, so a SECOND
successful `execve` for the same pid overwrites the process name again
("a" becomes "b"), contradicting the claimed never-overwritten-again
property. -/
theorem c6_counterexample :
    post_hook ⟨[⟨1, 0, "orig", 5, ""⟩], [(1, 0)], [], true⟩ c6sc1 =
      .ok (⟨[⟨1, 0, "a", 5, ""⟩], [(1, 0)], [], true⟩, some ⟨1, 0, "a", 5, ""⟩) ∧
    post_hook ⟨[⟨1, 0, "a", 5, ""⟩], [(1, 0)], [], true⟩ c6sc2 =
      .ok (⟨[⟨1, 0, "b", 5, "x"⟩], [(1, 0)], [], true⟩, some ⟨1, 0, "b", 5, "x"⟩) ∧
    ("a" : String) ≠ "b" := by
  decide

/-- C6 (amended): a successful `execve` (falsy return value) for a pid
with a materialized record updates exactly the record's process name
(basename of `str` of argument 0) and command line (space-joined
argument-1 list) — no other field — and it does so exactly while the
stored command line is still empty:
once the command line is non-empty, every further `execve` for that pid
(successful or not) leaves the state unchanged and yields nothing; so
"set exactly once" holds precisely when the first successful `execve`
joins to a NON-empty command line. -/
theorem c6_execve_first_nonempty_wins :
    (∀ (st : PState) (sc : SEvent) (p : Proc), sc.api = "execve" →
      get_proc st sc.pid = some p → p.command_line.isEmpty = false →
      post_hook st sc = .ok (st, none)) ∧
    (∀ (st : PState) (sc : SEvent) (p : Proc), sc.api = "execve" →
      get_proc st sc.pid = some p → sc.return_value.isEmpty = false →
      post_hook st sc = .ok (st, none)) ∧
    (∀ (st : PState) (sc : SEvent) (p : Proc) (v0 v1 : Value) (cl : String),
      sc.api = "execve" →
      get_proc st sc.pid = some p → sc.return_value.isEmpty = true →
      p.command_line.isEmpty = true →
      alookup sc.arguments "p0" = some v0 →
      alookup sc.arguments "p1" = some v1 →
      pyJoinSpace v1 = .ok cl →
      post_hook st sc = .ok
        ({ st with processes := (updateProc st.processes sc.pid
            ({ p with process_name := basename (pyStr v0), command_line := cl })) },
         some ({ p with process_name := basename (pyStr v0), command_line := cl }))) := by
  refine ⟨?_, ?_, ?_⟩
  · intro st sc p hsc hget hcl
    simp [post_hook, hsc, hget, hcl]
  · intro st sc p hsc hget hret
    simp [post_hook, hsc, hget, hret]
  · intro st sc p v0 v1 cl hsc hget hret hcl hp0 hp1 hjoin
    simp [post_hook, hsc, hget, hret, hcl, hp0, hp1, hjoin]

/-- C6, witness: the update applied to a fresh record of pid 1, and the
subsequent no-op once the command line is non-empty. -/
theorem c6_witness :
    post_hook ⟨[⟨1, 0, "orig", 5, ""⟩], [(1, 0)], [], true⟩ c6sc2 =
      .ok (⟨[⟨1, 0, "b", 5, "x"⟩], [(1, 0)], [], true⟩, some ⟨1, 0, "b", 5, "x"⟩) ∧
    post_hook ⟨[⟨1, 0, "b", 5, "x"⟩], [(1, 0)], [], true⟩ c6sc1 =
      .ok (⟨[⟨1, 0, "b", 5, "x"⟩], [(1, 0)], [], true⟩, none) :=
  ⟨by
    have h := c6_execve_first_nonempty_wins.2.2
      ⟨[⟨1, 0, "orig", 5, ""⟩], [(1, 0)], [], true⟩ c6sc2 ⟨1, 0, "orig", 5, ""⟩
      (.str "/bin/b") (.vlist [.str "x"]) "x"
      (by decide) (by decide) (by decide) (by decide) (by decide) (by decide)
      (by decide)
    exact h.trans (by decide),
   c6_execve_first_nonempty_wins.1
      ⟨[⟨1, 0, "b", 5, "x"⟩], [(1, 0)], [], true⟩ c6sc1 ⟨1, 0, "b", 5, "x"⟩
      (by decide) (by decide) (by decide)⟩

/-!
Claim C5: process-record creation and the fork-map gate.
-/

/-- Is this syscall one of the two fork-map registering APIs? -/
def isForkApi (sc : SEvent) : Bool := sc.api == "clone" || sc.api == "fork"

/-- The child pid a syscall registers in the fork map (`pre_hook`),
`none` for every other syscall. -/
def forkChild (sc : SEvent) : Option Int :=
  if isForkApi sc then pyInt sc.return_value else none

/-- The process records with a given pid. -/
def procsFor (C : Int) (l : List Proc) : List Proc :=
  l.filter (fun p => decide (p.pid = C))

/-- The pid an output of `parse` is attributed to. -/
def outPid : POut → Int
  | .generic pid _ _ => pid
  | .proc p => p.pid

/-- The (pid, parent pid) identity of a record, which `post_hook` never
changes. -/
def projPP (p : Proc) : Int × Int := (p.pid, p.ppid)

theorem procsFor_map_projPP (C : Int) (l : List Proc) :
    (procsFor C l).map projPP =
      (l.map projPP).filter (fun q => decide (q.1 = C)) := by
  rw [List.filter_map]
  rfl

theorem procsFor_eq_nil (C : Int) (l : List Proc)
    (h : ∀ p ∈ l, p.pid ≠ C) : procsFor C l = [] :=
  List.filter_eq_nil_iff.mpr (fun p hp => by simp [h p hp])

theorem map_eq_single {α β : Type} (f : α → β) (l : List α) (y : β)
    (h : l.map f = [y]) : ∃ x, l = [x] ∧ f x = y := by
  cases l with
  | nil => simp at h
  | cons a t =>
    cases t with
    | nil =>
      simp at h
      exact ⟨a, rfl, h⟩
    | cons b t2 => simp at h

/-- `ProcC C P l`: the record list contains exactly one record for pid
`C`, and its parent is `P`. -/
def ProcC (C P : Int) (l : List Proc) : Prop :=
  ∃ r, procsFor C l = [r] ∧ r.ppid = P

theorem noC_of_projPP_eq (C : Int) (l1 l2 : List Proc)
    (hpp : l2.map projPP = l1.map projPP)
    (h : ∀ p ∈ l1, p.pid ≠ C) : ∀ p ∈ l2, p.pid ≠ C := by
  intro p hp
  have hmem : projPP p ∈ l1.map projPP := by
    rw [← hpp]
    exact List.mem_map_of_mem projPP hp
  rcases List.mem_map.1 hmem with ⟨q, hq, hqe⟩
  have : q.pid = p.pid := congrArg Prod.fst hqe
  rw [← this]
  exact h q hq

theorem procC_of_projPP (C P : Int) (l : List Proc)
    (h : (l.map projPP).filter (fun q => decide (q.1 = C)) = [(C, P)]) :
    ProcC C P l := by
  have h2 : (procsFor C l).map projPP = [(C, P)] := by
    rw [procsFor_map_projPP]
    exact h
  rcases map_eq_single projPP (procsFor C l) (C, P) h2 with ⟨r, hr, hre⟩
  exact ⟨r, hr, congrArg Prod.snd hre⟩

theorem procC_of_projPP_eq (C P : Int) (l1 l2 : List Proc)
    (hpp : l2.map projPP = l1.map projPP)
    (h : ProcC C P l1) : ProcC C P l2 := by
  rcases h with ⟨r, hr, hrp⟩
  apply procC_of_projPP
  rw [hpp, ← procsFor_map_projPP, hr]
  have : r.pid = C := by
    have := List.mem_filter.1 (hr ▸ List.mem_singleton_self r :
      r ∈ procsFor C l1)
    simpa using this.2
  simp [projPP, this, hrp]

theorem updateProc_projPP (l : List Proc) (pid : Int) (p : Proc) (a b : String)
    (hfind : l.find? (fun r => decide (r.pid = pid)) = some p) :
    (updateProc l pid { p with process_name := a, command_line := b }).map projPP =
      l.map projPP := by
  induction l with
  | nil => simp at hfind
  | cons h0 t ih =>
    by_cases hh : h0.pid = pid
    · rw [List.find?_cons_of_pos _ (by simp [hh])] at hfind
      injection hfind with hfind
      rw [show updateProc (h0 :: t) pid { p with process_name := a, command_line := b } =
          { p with process_name := a, command_line := b } :: t from by
        simp [updateProc, hh]]
      rw [List.map_cons, List.map_cons]
      rw [← hfind]
      rfl
    · rw [List.find?_cons_of_neg _ (by simp [hh])] at hfind
      rw [show updateProc (h0 :: t) pid { p with process_name := a, command_line := b } =
          h0 :: updateProc t pid { p with process_name := a, command_line := b } from by
        simp [updateProc, hh]]
      rw [List.map_cons, List.map_cons, ih hfind]

theorem find?_pid (l : List Proc) (pid : Int) (p : Proc)
    (hfind : l.find? (fun r => decide (r.pid = pid)) = some p) : p.pid = pid := by
  have := List.find?_some hfind
  simpa using this

/-- What `post_hook` can do to the state: it never changes the fork map,
the behavior map, or the (pid, ppid) identity of any record, and a
surfaced record carries the event's pid. -/
theorem post_hook_spec (st : PState) (sc : SEvent) (st2 : PState)
    (popt : Option Proc) (h : post_hook st sc = .ok (st2, popt)) :
    st2.processes.map projPP = st.processes.map projPP ∧
    st2.forkmap = st.forkmap ∧ st2.behavior = st.behavior ∧
    (∀ q, popt = some q → q.pid = sc.pid) := by
  unfold post_hook at h
  split at h
  · rcases hget : get_proc st sc.pid with _ | p
    · rw [hget] at h
      exact Except.noConfusion h
    · rw [hget] at h
      dsimp only at h
      split at h
      · split at h
        · exact Except.noConfusion h
        · split at h
          · exact Except.noConfusion h
          · split at h
            · exact Except.noConfusion h
            · injection h with h2
              obtain ⟨h3, h4⟩ := Prod.mk.inj h2
              rw [← h3, ← h4]
              refine ⟨updateProc_projPP st.processes sc.pid p _ _ hget, rfl, rfl, ?_⟩
              intro q hq
              injection hq with hq
              rw [← hq]
              exact find?_pid st.processes sc.pid p hget
      · injection h with h2
        obtain ⟨h3, h4⟩ := Prod.mk.inj h2
        rw [← h3, ← h4]
        exact ⟨rfl, rfl, rfl, fun q hq => Option.noConfusion hq⟩
  · injection h with h2
    obtain ⟨h3, h4⟩ := Prod.mk.inj h2
    rw [← h3, ← h4]
    exact ⟨rfl, rfl, rfl, fun q hq => Option.noConfusion hq⟩

/-- What `pre_hook` does: only the fork map changes, and exactly by
registering `forkChild`. -/
theorem pre_hook_spec (st : PState) (sc : SEvent) (st1 : PState)
    (h : pre_hook st sc = .ok st1) :
    st1.processes = st.processes ∧ st1.behavior = st.behavior ∧
    st1.forkmap = (match forkChild sc with
      | some c => aset st.forkmap c sc.pid
      | none => st.forkmap) := by
  unfold pre_hook at h
  split at h
  case isTrue hapi =>
    have hfa : isForkApi sc = true := by
      simp [isForkApi]
      rcases hapi with h2 | h2 <;> simp [h2]
    rcases hpi : pyInt sc.return_value with _ | child
    · rw [hpi] at h
      exact Except.noConfusion h
    · rw [hpi] at h
      injection h with h2
      rw [← h2]
      refine ⟨rfl, rfl, ?_⟩
      rw [show forkChild sc = some child from by simp [forkChild, hfa, hpi]]
  case isFalse hapi =>
    injection h with h2
    rw [← h2]
    refine ⟨rfl, rfl, ?_⟩
    have hfa : isForkApi sc = false := by
      by_cases hc : sc.api = "clone"
      · exact absurd (Or.inl hc) hapi
      · by_cases hf : sc.api = "fork"
        · exact absurd (Or.inr hf) hapi
        · simp [isForkApi, hc, hf]
    rw [show forkChild sc = none from by simp [forkChild, hfa]]

/-- The (pid, ppid) projection of the record list after the new-pid
block. -/
theorem midState_projPP (st1 : PState) (sc : SEvent) :
    (midState st1 sc).processes.map projPP =
      (if is_newpid st1 sc.pid = true
       then st1.processes.map projPP ++
         [(sc.pid, (alookup st1.forkmap sc.pid).getD (-1))]
       else st1.processes.map projPP) := by
  unfold midState
  by_cases hnew : is_newpid st1 sc.pid
  · rw [if_pos hnew, if_pos hnew]
    dsimp only
    rw [List.map_append]
    rfl
  · rw [if_neg hnew, if_neg hnew]

/-- What one `parse`-loop iteration does to the fork map, the process
list (up to (pid, ppid) identity) and the outputs. -/
theorem parseStep_spec (st : PState) (sc : SEvent) (st2 : PState)
    (outs : List POut) (h : parseStep st sc = .ok (st2, outs)) :
    st2.forkmap = (match forkChild sc with
      | some c => aset st.forkmap c sc.pid
      | none => st.forkmap) ∧
    (amem st2.forkmap sc.pid = false → st2.processes = st.processes ∧ outs = []) ∧
    (amem st2.forkmap sc.pid = true →
      (∀ o ∈ outs, outPid o = sc.pid) ∧
      st2.processes.map projPP =
        (if is_newpid st sc.pid = true
         then st.processes.map projPP ++
           [(sc.pid, (alookup st2.forkmap sc.pid).getD (-1))]
         else st.processes.map projPP)) := by
  obtain ⟨st1, hpre, hc⟩ := parseStep_cases st sc st2 outs h
  obtain ⟨hp1, hb1, hf1⟩ := pre_hook_spec st sc st1 hpre
  have hnewEq : is_newpid st1 sc.pid = is_newpid st sc.pid := by
    unfold is_newpid
    rw [hp1]
  rcases hc with ⟨hfm, h2, h3⟩ | ⟨hfm, bst, bst2, facts, pOpt, hbl, hpa, hph, houts⟩
  · subst h2
    refine ⟨hf1, fun _ => ⟨hp1, h3⟩, ?_⟩
    intro habs
    rw [habs] at hfm
    exact Bool.noConfusion hfm
  · obtain ⟨hpp4, hfm4, hbb4, hpid4⟩ := post_hook_spec _ sc st2 pOpt hph
    have hfm2 : st2.forkmap = st1.forkmap :=
      hfm4.trans (midState_forkmap st1 sc)
    refine ⟨hfm2.trans hf1, ?_, ?_⟩
    · intro habs
      rw [hfm2] at habs
      rw [hfm] at habs
      exact Bool.noConfusion habs
    · intro _
      constructor
      · intro o ho
        rcases houts with hh | ⟨pr, hpr, hh⟩
        · rw [hh] at ho
          rcases List.mem_map.1 ho with ⟨f, _, hf⟩
          rw [← hf]
          rfl
        · rw [hh] at ho
          rcases List.mem_append.1 ho with ho2 | ho2
          · rcases List.mem_map.1 ho2 with ⟨f, _, hf⟩
            rw [← hf]
            rfl
          · rw [List.mem_singleton.1 ho2]
            exact hpid4 pr hpr
      · have hmm : st2.processes.map projPP =
            (midState st1 sc).processes.map projPP := hpp4
        rw [hmm, midState_projPP st1 sc, hnewEq, hp1, hfm2]

theorem parseRun_cons (st : PState) (sc : SEvent) (rest : List SEvent)
    (st2 : PState) (outs : List POut)
    (h : parseRun st (sc :: rest) = .ok (st2, outs)) :
    ∃ stm outs1 outs2, parseStep st sc = .ok (stm, outs1) ∧
      parseRun stm rest = .ok (st2, outs2) ∧ outs = outs1 ++ outs2 := by
  unfold parseRun at h
  rcases hstep : parseStep st sc with e | p
  · rw [hstep] at h
    exact Except.noConfusion h
  · obtain ⟨stm, outs1⟩ := p
    rw [hstep] at h
    dsimp only at h
    rcases hrun : parseRun stm rest with e | q
    · rw [hrun] at h
      exact Except.noConfusion h
    · obtain ⟨st3, outs2⟩ := q
      rw [hrun] at h
      dsimp only at h
      injection h with h2
      obtain ⟨h3, h4⟩ := Prod.mk.inj h2
      subst h3
      exact ⟨stm, outs1, outs2, rfl, hrun, h4.symm⟩

theorem parseRun_append (l1 l2 : List SEvent) : ∀ (st st2 : PState)
    (outs : List POut), parseRun st (l1 ++ l2) = .ok (st2, outs) →
    ∃ stm outs1 outs2, parseRun st l1 = .ok (stm, outs1) ∧
      parseRun stm l2 = .ok (st2, outs2) ∧ outs = outs1 ++ outs2 := by
  induction l1 with
  | nil =>
    intro st st2 outs h
    exact ⟨st, [], outs, rfl, h, rfl⟩
  | cons sc rest ih =>
    intro st st2 outs h
    rw [List.cons_append] at h
    obtain ⟨stm, outs1, outs2, hstep, hrun, houts⟩ :=
      parseRun_cons st sc (rest ++ l2) st2 outs h
    obtain ⟨stmm, o1, o2, hr1, hr2, ho⟩ := ih stm st2 outs2 hrun
    refine ⟨stmm, outs1 ++ o1, o2, ?_, hr2, ?_⟩
    · unfold parseRun
      rw [hstep]
      dsimp only
      rw [hr1]
    · rw [houts, ho, List.append_assoc]

theorem noD_of_projPP_extra (D : Int) (l1 l2 : List Proc)
    (extra : List (Int × Int))
    (hpp : l2.map projPP = l1.map projPP ++ extra)
    (h1 : ∀ p ∈ l1, p.pid ≠ D) (hex : ∀ q ∈ extra, q.1 ≠ D) :
    ∀ p ∈ l2, p.pid ≠ D := by
  intro p hp
  have hm : projPP p ∈ l1.map projPP ++ extra :=
    hpp ▸ List.mem_map_of_mem projPP hp
  rcases List.mem_append.1 hm with hm | hm
  · rcases List.mem_map.1 hm with ⟨q, hq, hqe⟩
    have hq2 : q.pid = p.pid := congrArg Prod.fst hqe
    rw [← hq2]
    exact h1 q hq
  · exact hex _ hm

theorem filterC_nil (D : Int) (l : List Proc) (h : ∀ p ∈ l, p.pid ≠ D) :
    (l.map projPP).filter (fun q => decide (q.1 = D)) = [] := by
  rw [← procsFor_map_projPP, procsFor_eq_nil D l h]
  rfl

theorem ProcC_filter (C P : Int) (l : List Proc) (h : ProcC C P l) :
    (l.map projPP).filter (fun q => decide (q.1 = C)) = [(C, P)] := by
  rcases h with ⟨r, hr, hp⟩
  rw [← procsFor_map_projPP, hr]
  have hrC : r.pid = C := by
    have := List.mem_filter.1
      (hr ▸ List.mem_singleton_self r : r ∈ procsFor C l)
    simpa using this.2
  simp [projPP, hrC, hp]

theorem is_newpid_true_of_noC (st : PState) (C : Int)
    (h : ∀ p ∈ st.processes, p.pid ≠ C) : is_newpid st C = true := by
  have h2 : st.processes.any (fun p => decide (p.pid = C)) = false := by
    rw [List.any_eq_false]
    intro p hp
    simp [h p hp]
  unfold is_newpid
  rw [h2]
  rfl

theorem is_newpid_false_of_procC (st : PState) (C P : Int)
    (h : ProcC C P st.processes) : is_newpid st C = false := by
  rcases h with ⟨r, hr, _⟩
  have hrmem := List.mem_filter.1
    (hr ▸ List.mem_singleton_self r : r ∈ procsFor C st.processes)
  have h2 : st.processes.any (fun p => decide (p.pid = C)) = true :=
    List.any_eq_true.mpr ⟨r, hrmem.1, by simpa using hrmem.2⟩
  unfold is_newpid
  rw [h2]
  rfl

/-- Along any run in which no fork/clone ever registers child pid `D`,
the state never acquires a fork-map entry or a process record for `D`,
and no output is attributed to `D`. -/
theorem parseRun_no_fork_child (D : Int) (evs : List SEvent) :
    ∀ (st st2 : PState) (outs : List POut),
    (∀ e ∈ evs, forkChild e ≠ some D) →
    alookup st.forkmap D = none → (∀ p ∈ st.processes, p.pid ≠ D) →
    parseRun st evs = .ok (st2, outs) →
    alookup st2.forkmap D = none ∧ (∀ p ∈ st2.processes, p.pid ≠ D) ∧
    (∀ o ∈ outs, outPid o ≠ D) := by
  induction evs with
  | nil =>
    intro st st2 outs _ hfm hpr h
    injection h with h2
    obtain ⟨h3, h4⟩ := Prod.mk.inj h2
    subst h3
    exact ⟨hfm, hpr, fun o ho => absurd (h4 ▸ ho) (List.not_mem_nil o)⟩
  | cons sc rest ih =>
    intro st st2 outs hnf hfm hpr h
    obtain ⟨stm, outs1, outs2, hstep, hrun, houts⟩ :=
      parseRun_cons st sc rest st2 outs h
    obtain ⟨hfmS, hfalse, htrue⟩ := parseStep_spec st sc stm outs1 hstep
    have hfmD : alookup stm.forkmap D = none := by
      rw [hfmS]
      rcases hfc : forkChild sc with _ | c
      · exact hfm
      · have hcD : D ≠ c := by
          intro hh
          exact hnf sc (List.mem_cons_self sc rest) (hh ▸ hfc)
        rw [alookup_aset_ne st.forkmap c D sc.pid hcD]
        exact hfm
    have hmain : (∀ p ∈ stm.processes, p.pid ≠ D) ∧
        (∀ o ∈ outs1, outPid o ≠ D) := by
      by_cases hmem : amem stm.forkmap sc.pid
      · have hpidD : sc.pid ≠ D := by
          intro hh
          rw [hh, amem, hfmD] at hmem
          simp at hmem
        obtain ⟨houtpid, hmap⟩ := htrue hmem
        constructor
        · by_cases hnew : is_newpid st sc.pid
          · rw [if_pos hnew] at hmap
            exact noD_of_projPP_extra D st.processes stm.processes _ hmap hpr
              (fun q hq => by
                rw [List.mem_singleton.1 hq]
                exact hpidD)
          · rw [if_neg hnew] at hmap
            exact noD_of_projPP_extra D st.processes stm.processes []
              (by rw [hmap, List.append_nil]) hpr (fun q hq => absurd hq (List.not_mem_nil q))
        · intro o ho
          rw [houtpid o ho]
          exact hpidD
      · obtain ⟨hproc, houts1⟩ := hfalse (Bool.eq_false_iff.mpr hmem)
        refine ⟨hproc ▸ hpr, ?_⟩
        intro o ho
        rw [houts1] at ho
        exact absurd ho (List.not_mem_nil o)
    obtain ⟨hfm2, hpr2, hout2⟩ := ih stm st2 outs2
      (fun e he => hnf e (List.mem_cons_of_mem sc he)) hfmD hmain.1 hrun
    refine ⟨hfm2, hpr2, ?_⟩
    intro o ho
    rw [houts] at ho
    rcases List.mem_append.1 ho with ho2 | ho2
    · exact hmain.2 o ho2
    · exact hout2 o ho2

/-- Once the fork map maps `C` to `P` and no further fork re-registers
`C`, the first event for pid `C` creates its unique record with parent
`P`, and the record (and its parent) survive the rest of the run. -/
theorem parseRun_after_fork (C P : Int) (evs : List SEvent) :
    ∀ (st st2 : PState) (outs : List POut),
    (∀ e ∈ evs, forkChild e ≠ some C) →
    alookup st.forkmap C = some P →
    ((∀ p ∈ st.processes, p.pid ≠ C) ∨ ProcC C P st.processes) →
    parseRun st evs = .ok (st2, outs) →
    alookup st2.forkmap C = some P ∧
    ((∀ p ∈ st2.processes, p.pid ≠ C) ∨ ProcC C P st2.processes) ∧
    (((∃ e ∈ evs, e.pid = C) ∨ ProcC C P st.processes) →
      ProcC C P st2.processes) := by
  induction evs with
  | nil =>
    intro st st2 outs _ hfm hinv h
    injection h with h2
    obtain ⟨h3, h4⟩ := Prod.mk.inj h2
    subst h3
    refine ⟨hfm, hinv, ?_⟩
    rintro (⟨e, he, _⟩ | hpc)
    · exact absurd he (List.not_mem_nil e)
    · exact hpc
  | cons sc rest ih =>
    intro st st2 outs hnf hfm hinv h
    obtain ⟨stm, outs1, outs2, hstep, hrun, houts⟩ :=
      parseRun_cons st sc rest st2 outs h
    obtain ⟨hfmS, hfalse, htrue⟩ := parseStep_spec st sc stm outs1 hstep
    have hfmC : alookup stm.forkmap C = some P := by
      rw [hfmS]
      rcases hfc : forkChild sc with _ | c
      · exact hfm
      · have hcC : C ≠ c := fun hh =>
          hnf sc (List.mem_cons_self sc rest) (hh ▸ hfc)
        rw [alookup_aset_ne st.forkmap c C sc.pid hcC]
        exact hfm
    have hstepinv : ((∀ p ∈ stm.processes, p.pid ≠ C) ∨ ProcC C P stm.processes) ∧
        (sc.pid = C → ProcC C P stm.processes) ∧
        (ProcC C P st.processes → ProcC C P stm.processes) := by
      by_cases hmem : amem stm.forkmap sc.pid
      · obtain ⟨houtpid, hmap⟩ := htrue hmem
        by_cases hpidC : sc.pid = C
        · rcases hinv with hno | hpc
          · have hnew : is_newpid st sc.pid = true := by
              rw [hpidC]
              exact is_newpid_true_of_noC st C hno
            rw [if_pos hnew] at hmap
            have hPP : (alookup stm.forkmap C).getD (-1) = P := by
              rw [hfmC]
              rfl
            have hproc : ProcC C P stm.processes := by
              apply procC_of_projPP
              rw [hmap, List.filter_append, filterC_nil C st.processes hno,
                List.nil_append]
              simp [hpidC, hPP]
            exact ⟨Or.inr hproc, fun _ => hproc, fun _ => hproc⟩
          · have hnew : is_newpid st sc.pid = false := by
              rw [hpidC]
              exact is_newpid_false_of_procC st C P hpc
            rw [if_neg (by simp [hnew])] at hmap
            have hproc : ProcC C P stm.processes :=
              procC_of_projPP_eq C P st.processes stm.processes hmap hpc
            exact ⟨Or.inr hproc, fun _ => hproc, fun _ => hproc⟩
        · rcases hinv with hno | hpc
          · have hnoM : ∀ p ∈ stm.processes, p.pid ≠ C := by
              by_cases hnew : is_newpid st sc.pid
              · rw [if_pos hnew] at hmap
                exact noD_of_projPP_extra C st.processes stm.processes _ hmap hno
                  (fun q hq => by
                    rw [List.mem_singleton.1 hq]
                    exact hpidC)
              · rw [if_neg hnew] at hmap
                exact noD_of_projPP_extra C st.processes stm.processes []
                  (by rw [hmap, List.append_nil]) hno
                  (fun q hq => absurd hq (List.not_mem_nil q))
            refine ⟨Or.inl hnoM, fun hh => absurd hh hpidC, fun hpc2 => ?_⟩
            rcases hpc2 with ⟨r, hr, _⟩
            have hrm := List.mem_filter.1
              (hr ▸ List.mem_singleton_self r : r ∈ procsFor C st.processes)
            exact absurd (by simpa using hrm.2) (hno r hrm.1)
          · have hproc : ProcC C P stm.processes := by
              apply procC_of_projPP
              by_cases hnew : is_newpid st sc.pid
              · rw [if_pos hnew] at hmap
                rw [hmap, List.filter_append, ProcC_filter C P st.processes hpc]
                simp [hpidC]
              · rw [if_neg hnew] at hmap
                rw [hmap, ProcC_filter C P st.processes hpc]
            exact ⟨Or.inr hproc, fun hh => absurd hh hpidC, fun _ => hproc⟩
      · obtain ⟨hproc, houts1⟩ := hfalse (Bool.eq_false_iff.mpr hmem)
        rw [hproc]
        refine ⟨hinv, ?_, fun hpc => hpc⟩
        intro hh
        exact absurd (show amem stm.forkmap sc.pid = true from by
          rw [hh, amem, hfmC]
          rfl) hmem
    obtain ⟨hfm2, hinv2, hthird⟩ := ih stm st2 outs2
      (fun e he => hnf e (List.mem_cons_of_mem sc he)) hfmC hstepinv.1 hrun
    refine ⟨hfm2, hinv2, ?_⟩
    rintro (⟨e, he, hep⟩ | hpc)
    · rcases List.mem_cons.1 he with he2 | he2
      · have hc : sc.pid = C := by
          rw [← he2]
          exact hep
        exact hthird (Or.inr (hstepinv.2.1 hc))
      · exact hthird (Or.inl ⟨e, he2, hep⟩)
    · exact hthird (Or.inr (hstepinv.2.2 hpc))

/-- C5: (a) when the trace contains the (unique) fork/clone event whose
return value registers child pid `C`, issued by parent `P`, and some
later event carries pid `C`, the reconstruction creates exactly one
process record for `C`, with parent pid `P`;
(b) every event whose pid is never registered as a child by any
fork/clone is skipped entirely: no process record and no output (generic
fact or surfaced record) is ever produced for such a pid. -/
theorem c5_fork_lineage :
    (∀ (evs1 : List SEvent) (f : SEvent) (evs2 : List SEvent) (C P : Int)
       (st2 : PState) (outs : List POut),
      isForkApi f = true → pyInt f.return_value = some C → f.pid = P →
      (∀ e ∈ evs1, forkChild e ≠ some C) →
      (∀ e ∈ evs2, forkChild e ≠ some C) →
      (∃ e ∈ evs2, e.pid = C) →
      parseRun PState.init (evs1 ++ f :: evs2) = .ok (st2, outs) →
      ProcC C P st2.processes) ∧
    (∀ (evs : List SEvent) (D : Int) (st2 : PState) (outs : List POut),
      (∀ e ∈ evs, forkChild e ≠ some D) →
      parseRun PState.init evs = .ok (st2, outs) →
      procsFor D st2.processes = [] ∧ ∀ o ∈ outs, outPid o ≠ D) := by
  constructor
  · intro evs1 f evs2 C P st2 outs hfa hpi hfp h1 h2 hex hrun
    obtain ⟨stA, o1, o2, hrA, hrB, _⟩ :=
      parseRun_append evs1 (f :: evs2) PState.init st2 outs hrun
    obtain ⟨hfmA, hprA, _⟩ := parseRun_no_fork_child C evs1 PState.init stA o1
      h1 (by simp [PState.init, alookup]) (by simp [PState.init]) hrA
    obtain ⟨stF, oF, o3, hstepF, hrunF, _⟩ := parseRun_cons stA f evs2 st2 o2 hrB
    obtain ⟨hfmF, hfalse, htrue⟩ := parseStep_spec stA f stF oF hstepF
    have hforkF : forkChild f = some C := by
      simp [forkChild, hfa, hpi]
    have hfmFC : alookup stF.forkmap C = some P := by
      rw [hfmF, hforkF, alookup_aset_self, hfp]
    have hinvF : (∀ p ∈ stF.processes, p.pid ≠ C) ∨ ProcC C P stF.processes := by
      by_cases hmem : amem stF.forkmap f.pid
      · obtain ⟨houtF, hmap⟩ := htrue hmem
        by_cases hPC : f.pid = C
        · have hnew : is_newpid stA f.pid = true := by
            rw [hPC]
            exact is_newpid_true_of_noC stA C hprA
          rw [if_pos hnew] at hmap
          have hPP : (alookup stF.forkmap C).getD (-1) = P := by
            rw [hfmFC]
            rfl
          refine Or.inr (procC_of_projPP C P stF.processes ?_)
          rw [hmap, List.filter_append, filterC_nil C stA.processes hprA,
            List.nil_append]
          simp [hPC, hPP]
        · refine Or.inl ?_
          by_cases hnew : is_newpid stA f.pid
          · rw [if_pos hnew] at hmap
            exact noD_of_projPP_extra C stA.processes stF.processes _ hmap hprA
              (fun q hq => by
                rw [List.mem_singleton.1 hq]
                exact hPC)
          · rw [if_neg hnew] at hmap
            exact noD_of_projPP_extra C stA.processes stF.processes []
              (by rw [hmap, List.append_nil]) hprA
              (fun q hq => absurd hq (List.not_mem_nil q))
      · obtain ⟨hproc, _⟩ := hfalse (Bool.eq_false_iff.mpr hmem)
        rw [hproc]
        exact Or.inl hprA
    obtain ⟨_, _, hfinal⟩ :=
      parseRun_after_fork C P evs2 stF st2 o3 h2 hfmFC hinvF hrunF
    exact hfinal (Or.inl hex)
  · intro evs D st2 outs hnf hrun
    obtain ⟨_, hpr, hout⟩ := parseRun_no_fork_child D evs PState.init st2 outs
      hnf (by simp [PState.init, alookup]) (by simp [PState.init]) hrun
    exact ⟨procsFor_eq_nil D st2.processes hpr, hout⟩

/-- C5, witness: a fork by pid 10 returning child pid 11, followed by one
event for pid 11, creates exactly the record (11, parent 10); and pid 5,
never forked, gets no record and no outputs. -/
theorem c5_witness :
    ProcC 11 10
      [({ pid := 11, ppid := 10, process_name := "child", first_seen := 1,
          command_line := "" } : Proc)] ∧
    (procsFor 5 ([] : List Proc) = [] ∧
      ∀ o ∈ ([] : List POut), outPid o ≠ 5) :=
  ⟨by
    have h := c5_fork_lineage.1 []
      ⟨0, "sh", "7f", 10, "fork", [], "11", "0", "default"⟩
      [⟨1, "child", "7f", 11, "nop", [], "0", "0", "default"⟩] 11 10
      ⟨[{ pid := 11, ppid := 10, process_name := "child", first_seen := 1,
          command_line := "" }], [(11, 10)],
        [(11, ⟨[], []⟩)], false⟩ []
      (by decide) (by decide) (by decide) (by decide) (by decide)
      ⟨⟨1, "child", "7f", 11, "nop", [], "0", "0", "default"⟩, by decide, by decide⟩
      (by decide)
    exact h,
   by
    have h := c5_fork_lineage.2 [⟨2, "x", "7f", 5, "nop", [], "0", "0", "default"⟩]
      5 ⟨[], [], [], false⟩ [] (by decide) (by decide)
    exact h⟩
